import Mathlib

/-!
pcapdj: dispatch of capture files through a redis handshake.

A shallow embedding of `pcapdj.c`.  The program is a single thread of control
(`process_input_queue` calling `process_file` calling `wait_auth_to_proceed` and
`suspend_pcapdj_if_needed`) that can be preempted between any two statements by
the signal handler `sig_handler`.  Each C function that blocks or talks to the
outside world is embedded as a step function on a program counter: one step is
one statement of the source.  Whatever the outside world decides (the reply of
the redis server to a command, the arrival of a signal) is carried by the
event that drives the step; what the codec returns for a file name is the
parameter `fs`.  Every call into hiredis or wiretap is appended to a history.
-/

namespace Pcapdj

/-! ## Constants of the source -/

/-- The list of processed files, `#define RQUEUE`. -/
def RQUEUE : String := "PCAPDJ_PROCESSED"

/-- The list announcing the next file, `#define NEXTJOB`. -/
def NEXTJOB : String := "PCAPDJ_NEXT"

/-- The authorization set, `#define AKEY`. -/
def AKEY : String := "PCAPDJ_AUTH"

/-- The completion key, `#define PCAPDJ_STATE`. -/
def PCAPDJ_STATE : String := "PCAPDJ_STATE"

/-- The value of the completion key, `#define PCAPDJ_STATE_DONE`. -/
def PCAPDJ_STATE_DONE : String := "DONE"

/-- Internal state: running. -/
def PCAPDJ_I_STATE_RUN : Nat := 0

/-- Internal state: suspended. -/
def PCAPDJ_I_STATE_SUSPEND : Nat := 1

/-- Internal state: waiting for the authorization. -/
def PCAPDJ_I_STATE_AUTH_WAIT : Nat := 2

/-- Internal state: feeding the fifo. -/
def PCAPDJ_I_STATE_FEED : Nat := 3

/-- Exit status of a successful run. -/
def EXIT_SUCCESS : Nat := 0

/-- Exit status of a failed run. -/
def EXIT_FAILURE : Nat := 1

/-- The number of values of a `u_int64_t`. -/
def U64 : Nat := 2 ^ 64

/-! ## Data model -/

/-- The counters of `statistics_t` (the start time is left out: it is written once
by `init` and only read by `display_stats`).  The `u_int64_t` fields are
natural numbers kept below `2 ^ 64` by the operations. -/
structure statistics_t where
  num_files : Nat
  num_packets : Nat
  sum_cap_lengths : Nat
  sum_lengths : Nat
  num_suspend : Nat
  state : Nat
  oldstate : Nat
deriving DecidableEq, Repr

/-- A record read by `wtap_read`: the captured length and the original length
of its packet header, and its payload. -/
structure wtap_rec where
  caplen : Nat
  len : Nat
  data : List Nat
deriving DecidableEq, Repr

/-- A reply of hiredis, by its `type` field. -/
inductive redisReply where
  | STRING (str : String)
  | ARRAY
  | INTEGER (integer : Int)
  | NIL
  | STATUS (str : String)
  | ERROR (str : String)
deriving DecidableEq, Repr

/-- The commands the program sends with `redisCommand`. -/
inductive Cmd where
  | LPOP (key : String)
  | RPUSH (key : String) (value : String)
  | SISMEMBER (key : String) (member : String)
  | SREM (key : String) (member : String)
  | SET (key : String) (value : String)
  | DEL (key : String)
deriving DecidableEq, Repr

/-- A call into an external library, as recorded in the history: a redis command
with what `redisCommand` returned (`none` is the NULL pointer), an attempt to
open a capture file with its outcome, a record written to the dumper. -/
inductive Action where
  | redisCommand (c : Cmd) (reply : Option redisReply)
  | wtap_open_offline (filename : String) (ok : Bool)
  | wtap_dump (rec : wtap_rec)
deriving DecidableEq, Repr

/-- The global variables `sigusr1_suspend` (a `sig_atomic_t`, an int) and `stats`,
and the history of the calls into the external libraries. -/
structure Globals where
  sigusr1_suspend : Int
  stats : statistics_t
  trace : List Action
deriving DecidableEq, Repr

/-- The two signals for which `init` installs `sig_handler`. -/
inductive Signal where
  | SIGUSR1
  | SIGUSR2
deriving DecidableEq, Repr

/-- What can happen next: a signal is delivered, or the main flow executes its
next statement; `reply` is what `redisCommand` returns when that statement
sends a command (it is not looked at otherwise). -/
inductive Event where
  | signal (s : Signal)
  | step (reply : Option redisReply)
deriving DecidableEq, Repr

/-! ## The signal handler and `init` -/

/-- The globals after `init`: `sigusr1_suspend = 0` and `memset(&stats, 0, ...)`. -/
def init : Globals :=
  { sigusr1_suspend := 0
    stats :=
      { num_files := 0, num_packets := 0, sum_cap_lengths := 0, sum_lengths := 0,
        num_suspend := 0, state := 0, oldstate := 0 }
    trace := [] }

/-- The handler `sig_handler`.  SIGUSR1 complements the flag and saves or restores
the state; SIGUSR2 calls `display_stats`, which only prints. -/
def sig_handler (signal_number : Signal) (g : Globals) : Globals :=
  match signal_number with
  | .SIGUSR1 =>
    let flag := ~~~ g.sigusr1_suspend
    if flag ≠ 0 then
      { g with
        sigusr1_suspend := flag
        stats :=
          { g.stats with
            oldstate := g.stats.state
            state := PCAPDJ_I_STATE_SUSPEND
            num_suspend := (g.stats.num_suspend + 1) % U64 } }
    else
      { g with
        sigusr1_suspend := flag
        stats :=
          { g.stats with
            state := g.stats.oldstate
            oldstate := PCAPDJ_I_STATE_SUSPEND } }
  | .SIGUSR2 => g

/-! ## The wrappers around `redisCommand` -/

/-- Send a command: the call and its reply are appended to the history. -/
def redisCommand (c : Cmd) (reply : Option redisReply) (g : Globals) : Globals :=
  { g with trace := g.trace ++ [Action.redisCommand c reply] }

/-- The function `update_processed_queue`: the reply is freed or ignored. -/
def update_processed_queue (filename : String) (reply : Option redisReply)
    (g : Globals) : Globals :=
  redisCommand (.RPUSH RQUEUE filename) reply g

/-- The function `update_next_file`: the reply is freed or ignored. -/
def update_next_file (filename : String) (reply : Option redisReply)
    (g : Globals) : Globals :=
  redisCommand (.RPUSH NEXTJOB filename) reply g

/-- The function `delete_next_file_queue`: the reply is freed or ignored. -/
def delete_next_file_queue (reply : Option redisReply) (g : Globals) : Globals :=
  redisCommand (.DEL NEXTJOB) reply g

/-- The function `delete_auth_file`: the reply is freed or ignored. -/
def delete_auth_file (filename : String) (reply : Option redisReply)
    (g : Globals) : Globals :=
  redisCommand (.SREM AKEY filename) reply g

/-! ## `suspend_pcapdj_if_needed` -/

/-- Program points of `suspend_pcapdj_if_needed`: the test of the `if`, the test
of the `while`, the return. -/
inductive SuspPC where
  | test
  | spin
  | ret
deriving DecidableEq, Repr

/-- One statement of `suspend_pcapdj_if_needed`: it only reads the flag. -/
def suspend_pcapdj_if_needed : SuspPC → Globals → SuspPC
  | .test, g => if g.sigusr1_suspend ≠ 0 then .spin else .ret
  | .spin, g => if g.sigusr1_suspend ≠ 0 then .spin else .ret
  | .ret, _ => .ret

/-! ## `wait_auth_to_proceed` -/

/-- Program points of `wait_auth_to_proceed`: the assignment of the state, the
SISMEMBER poll, the call of `delete_auth_file`, the return. -/
inductive AuthPC where
  | set_state
  | poll
  | del
  | ret
deriving DecidableEq, Repr

/-- One statement of `wait_auth_to_proceed`. -/
def wait_auth_to_proceed (filename : String) (reply : Option redisReply) :
    AuthPC → Globals → AuthPC × Globals
  | .set_state, g =>
    (.poll, { g with stats := { g.stats with state := PCAPDJ_I_STATE_AUTH_WAIT } })
  | .poll, g =>
    let g1 := redisCommand (.SISMEMBER AKEY filename) reply g
    match reply with
    | some (.INTEGER integer) => if integer = 1 then (.del, g1) else (.poll, g1)
    | some _ => (.poll, g1)
    | none => (.poll, g1)
  | .del, g => (.ret, delete_auth_file filename reply g)
  | .ret, g => (.ret, g)

/-! ## `process_file` -/

/-- Program points of `process_file`, by the line of the source they stand before;
`rec` is the record in hand and `rest` what `wtap_read` has still to yield. -/
inductive FilePC where
  | update_next_file
  | wait_auth (p : AuthPC)
  | open_offline
  | inc_files (recs : List wtap_rec)
  | read (rest : List wtap_rec)
  | suspend (p : SuspPC) (rec : wtap_rec) (rest : List wtap_rec)
  | set_feed (rec : wtap_rec) (rest : List wtap_rec)
  | dump (rec : wtap_rec) (rest : List wtap_rec)
  | inc_packets (rec : wtap_rec) (rest : List wtap_rec)
  | add_cap (rec : wtap_rec) (rest : List wtap_rec)
  | add_len (rec : wtap_rec) (rest : List wtap_rec)
  | update_processed_queue
  | ret
deriving DecidableEq, Repr

/-- One statement of `process_file`.  `fs filename` is what the codec does with the
file: `none` when `wtap_open_offline` fails, else the records `wtap_read`
yields before it returns false. -/
def process_file (fs : String → Option (List wtap_rec)) (filename : String)
    (reply : Option redisReply) : FilePC → Globals → FilePC × Globals
  | .update_next_file, g => (.wait_auth .set_state, update_next_file filename reply g)
  | .wait_auth p, g =>
    match wait_auth_to_proceed filename reply p g with
    | (.ret, g1) => (.open_offline, g1)
    | (p1, g1) => (.wait_auth p1, g1)
  | .open_offline, g =>
    match fs filename with
    | some recs =>
      (.inc_files recs, { g with trace := g.trace ++ [.wtap_open_offline filename true] })
    | none => (.ret, { g with trace := g.trace ++ [.wtap_open_offline filename false] })
  | .inc_files recs, g =>
    (.read recs, { g with stats := { g.stats with num_files := (g.stats.num_files + 1) % U64 } })
  | .read [], g => (.update_processed_queue, g)
  | .read (rec :: rest), g => (.suspend .test rec rest, g)
  | .suspend p rec rest, g =>
    match suspend_pcapdj_if_needed p g with
    | .ret => (.set_feed rec rest, g)
    | p1 => (.suspend p1 rec rest, g)
  | .set_feed rec rest, g =>
    (.dump rec rest, { g with stats := { g.stats with state := PCAPDJ_I_STATE_FEED } })
  | .dump rec rest, g => (.inc_packets rec rest, { g with trace := g.trace ++ [.wtap_dump rec] })
  | .inc_packets rec rest, g =>
    (.add_cap rec rest,
      { g with stats := { g.stats with num_packets := (g.stats.num_packets + 1) % U64 } })
  | .add_cap rec rest, g =>
    (.add_len rec rest,
      { g with stats :=
          { g.stats with sum_cap_lengths := (g.stats.sum_cap_lengths + rec.caplen) % U64 } })
  | .add_len rec rest, g =>
    (.read rest,
      { g with stats := { g.stats with sum_lengths := (g.stats.sum_lengths + rec.caplen) % U64 } })
  | .update_processed_queue, g => (.ret, update_processed_queue filename reply g)
  | .ret, g => (.ret, g)

/-! ## `process_input_queue` -/

/-- Program points of `process_input_queue`: the test after `redisConnect`, the
LPOP, the call of `process_file`, the SET of the completion key, the call of
`delete_next_file_queue`, the return with its status. -/
inductive PC where
  | connect
  | lpop
  | file (filename : String) (p : FilePC)
  | set_done
  | delete_next_file_queue
  | ret (status : Nat)
deriving DecidableEq, Repr

/-- One statement of `process_input_queue`.  `ctx_err` says whether the context
returned by `redisConnect` carries an error. -/
def process_input_queue (fs : String → Option (List wtap_rec)) (ctx_err : Bool)
    (redis_queue : String) (reply : Option redisReply) : PC → Globals → PC × Globals
  | .connect, g => if ctx_err then (.ret EXIT_FAILURE, g) else (.lpop, g)
  | .lpop, g =>
    let g1 := redisCommand (.LPOP redis_queue) reply g
    match reply with
    | none => (.ret EXIT_FAILURE, g1)
    | some (.STRING str) => (.file str .update_next_file, g1)
    | some .NIL => (.set_done, g1)
    | some _ => (.lpop, g1)
  | .file filename p, g =>
    match process_file fs filename reply p g with
    | (.ret, g1) => (.lpop, g1)
    | (p1, g1) => (.file filename p1, g1)
  | .set_done, g =>
    (.delete_next_file_queue, redisCommand (.SET PCAPDJ_STATE PCAPDJ_STATE_DONE) reply g)
  | .delete_next_file_queue, g => (.ret EXIT_SUCCESS, delete_next_file_queue reply g)
  | .ret status, g => (.ret status, g)

/-! ## Interleaving with the signal handler -/

/-- One event: a signal runs the handler and leaves the program counter where it
is; a step runs the next statement of the main flow `main`. -/
def exec {P : Type} (main : Option redisReply → P → Globals → P × Globals) :
    Event → P × Globals → P × Globals
  | .signal s, c => (c.1, sig_handler s c.2)
  | .step reply, c => main reply c.1 c.2

/-- A schedule of events, run from a configuration. -/
def run {P : Type} (main : Option redisReply → P → Globals → P × Globals)
    (evs : List Event) (c : P × Globals) : P × Globals :=
  evs.foldl (fun c e => exec main e c) c

/-! ## Vocabulary of the properties -/

/-- The main flow never writes the flag, the suspend counter or the saved state,
and writes the state only with AUTH_WAIT or FEED. -/
def MainFrame (g g1 : Globals) : Prop :=
  g1.sigusr1_suspend = g.sigusr1_suspend ∧
  g1.stats.num_suspend = g.stats.num_suspend ∧
  g1.stats.oldstate = g.stats.oldstate ∧
  (g1.stats.state = g.stats.state ∨ g1.stats.state = PCAPDJ_I_STATE_AUTH_WAIT ∨
    g1.stats.state = PCAPDJ_I_STATE_FEED)

/-- The number of SIGUSR1 signals of a schedule. -/
def toggles (evs : List Event) : Nat :=
  evs.count (.signal .SIGUSR1)

/-- The number of SIGUSR1 signals of a schedule that found the flag clear, along
the run of the schedule from `c`. -/
def risingToggles {P : Type} (main : Option redisReply → P → Globals → P × Globals) :
    List Event → P × Globals → Nat
  | [], _ => 0
  | e :: evs, c =>
    (if e = .signal .SIGUSR1 ∧ c.2.sigusr1_suspend = 0 then 1 else 0) +
      risingToggles main evs (exec main e c)

/-- The states the main flow can be in when it is not suspended. -/
def activeState (s : Nat) : Prop :=
  s = PCAPDJ_I_STATE_RUN ∨ s = PCAPDJ_I_STATE_AUTH_WAIT ∨ s = PCAPDJ_I_STATE_FEED

/-- A schedule that suspends the program before the first file is announced and
lets the main flow go on to the first poll of `wait_auth_to_proceed`. -/
def suspendedBeforeAuthWait : List Event :=
  [.signal .SIGUSR1, .step none, .step (some (.STRING "a.pcap")), .step (some (.INTEGER 1)),
    .step none]

/-- What holds of the flag and the two state fields in every reachable state: the
flag is 0 or -1; the state is an active one while the flag is clear; the saved
state is an active one while the flag is set. -/
def StateInv (g : Globals) : Prop :=
  (g.sigusr1_suspend = 0 ∨ g.sigusr1_suspend = -1) ∧
  (g.sigusr1_suspend = 0 → activeState g.stats.state) ∧
  (g.sigusr1_suspend = -1 → activeState g.stats.oldstate)

/-- A schedule with a suspension during the handshake and a resumption after it. -/
def suspendAndResume : List Event :=
  [.step none, .step (some (.STRING "a.pcap")), .signal .SIGUSR1, .step (some (.INTEGER 1)),
    .step none, .step (some (.INTEGER 1)), .signal .SIGUSR1]

/-- Whether an event is a statement of the main flow. -/
def isStep : Event → Bool
  | .step _ => true
  | .signal _ => false

/-- The number of statements the main flow executes in a schedule. -/
def mainSteps (evs : List Event) : Nat :=
  evs.countP isStep

/-- What follows the last LPOP in a run that is suspended and resumed while it
winds up. -/
def windUp : List Event :=
  [.signal .SIGUSR1, .step (some (.STATUS "OK")), .signal .SIGUSR1, .step (some (.INTEGER 0))]

/-- A run on an empty queue in which the connection to redis is lost after the
LPOP: neither the SET nor the DEL gets a reply. -/
def connectionLostAfterPop : List Event :=
  [.step none, .step (some .NIL), .step none, .step none]

/-- A run in which the connection to redis is lost during the handshake of the
first file: the RPUSH is answered, three polls in a row get no reply. -/
def connectionLostInHandshake : List Event :=
  [.step none, .step (some (.STRING "a.pcap")), .step (some (.INTEGER 1)), .step none,
    .step none, .step none, .step none]

/-- The records of a file: those `wtap_read` yields, none when the file does not
open. -/
def records (fs : String → Option (List wtap_rec)) (filename : String) : List wtap_rec :=
  (fs filename).getD []

/-- The sum of the captured lengths of a list of records. -/
def capSum (recs : List wtap_rec) : Nat :=
  (recs.map (fun r => r.caplen)).sum

/-- At a point of `process_file`, the records `wtap_read` has still to yield; all the
records of the file before it is opened. -/
def upcoming (fs : String → Option (List wtap_rec)) (filename : String) :
    FilePC → List wtap_rec
  | .update_next_file => records fs filename
  | .wait_auth _ => records fs filename
  | .open_offline => records fs filename
  | .inc_files recs => recs
  | .read rest => rest
  | .suspend _ _ rest => rest
  | .set_feed _ rest => rest
  | .dump _ rest => rest
  | .inc_packets _ rest => rest
  | .add_cap _ rest => rest
  | .add_len _ rest => rest
  | .update_processed_queue => []
  | .ret => []

/-- The records still to be written to the dumper. -/
def toDump (fs : String → Option (List wtap_rec)) (filename : String) :
    FilePC → List wtap_rec
  | .suspend p rec rest => rec :: upcoming fs filename (.suspend p rec rest)
  | .set_feed rec rest => rec :: upcoming fs filename (.set_feed rec rest)
  | .dump rec rest => rec :: upcoming fs filename (.dump rec rest)
  | p => upcoming fs filename p

/-- The records still to be counted in `num_packets`. -/
def toCount (fs : String → Option (List wtap_rec)) (filename : String) :
    FilePC → List wtap_rec
  | .inc_packets rec rest => rec :: upcoming fs filename (.inc_packets rec rest)
  | p => toDump fs filename p

/-- The records still to be added to `sum_cap_lengths`. -/
def toAddCap (fs : String → Option (List wtap_rec)) (filename : String) :
    FilePC → List wtap_rec
  | .add_cap rec rest => rec :: upcoming fs filename (.add_cap rec rest)
  | p => toCount fs filename p

/-- The records still to be added to `sum_lengths`. -/
def toAddLen (fs : String → Option (List wtap_rec)) (filename : String) :
    FilePC → List wtap_rec
  | .add_len rec rest => rec :: upcoming fs filename (.add_len rec rest)
  | p => toAddCap fs filename p

/-- The three counters of a statistics block are values of a `u_int64_t`. -/
def countersInRange (s : statistics_t) : Prop :=
  s.num_packets < U64 ∧ s.sum_cap_lengths < U64 ∧ s.sum_lengths < U64

instance (s : statistics_t) : Decidable (countersInRange s) := by
  unfold countersInRange
  exact inferInstance

/-- The relation of the two length accumulators at a point of `process_file`:
equal, except between the two additions of a record. -/
def SumInv : FilePC × Globals → Prop
  | (.add_len rec _, g) =>
    g.stats.sum_cap_lengths = (g.stats.sum_lengths + rec.caplen) % U64
  | (_, g) => g.stats.sum_cap_lengths = g.stats.sum_lengths

/-- The relation of the two length accumulators at a point of
`process_input_queue`. -/
def SumInvPC : PC × Globals → Prop
  | (.file _ p, g) => SumInv (p, g)
  | (_, g) => g.stats.sum_cap_lengths = g.stats.sum_lengths

/-- A codec for the examples: `a.pcap` holds two records, `b.pcap` holds one, no
other file opens. -/
def twoFiles : String → Option (List wtap_rec) := fun filename =>
  if filename = "a.pcap" then
    some [{ caplen := 60, len := 1514, data := [1] }, { caplen := 40, len := 40, data := [2] }]
  else if filename = "b.pcap" then some [{ caplen := 7, len := 7, data := [3] }]
  else none

/-- The statements of `process_file` on a file of two records that is authorized
at the second poll, with a suspension that is over before the second record
is checked. -/
def feedTwoRecords : List Event :=
  [.step (some (.INTEGER 1)), .step none, .step (some (.INTEGER 0)), .step (some (.INTEGER 1)),
    .step (some (.INTEGER 1)), .step none, .step none,
    .step none, .step none, .step none, .step none, .step none, .signal .SIGUSR1, .step none,
    .step none, .signal .SIGUSR1,
    .step none, .step none, .step none, .step none, .step none, .step none, .step none,
    .step none, .step (some (.INTEGER 1))]

/-- A run that stops in the first file between the addition to `sum_cap_lengths`
and the addition to `sum_lengths`. -/
def stopBetweenAdditions : List Event :=
  [.step none, .step (some (.STRING "a.pcap")), .step (some (.INTEGER 1)), .step none,
    .step (some (.INTEGER 1)), .step (some (.INTEGER 1)), .step none, .step none, .step none,
    .step none, .step none, .step none, .step none, .step none]

/-- The records written to the dumper, in the order of the writes. -/
def dumped (t : List Action) : List wtap_rec :=
  t.filterMap fun a =>
    match a with
    | .wtap_dump rec => some rec
    | _ => none

/-- The file names popped from the queue: the string replies to the LPOPs, in
order. -/
def popped (t : List Action) : List String :=
  t.filterMap fun a =>
    match a with
    | .redisCommand (.LPOP _) (some (.STRING str)) => some str
    | _ => none

/-- The values of the RPUSH commands sent on a key, in order. -/
def pushed (key : String) (t : List Action) : List String :=
  t.filterMap fun a =>
    match a with
    | .redisCommand (.RPUSH k v) _ => if k = key then some v else none
    | _ => none

/-- A command has succeeded when it got a reply that is not an error reply. -/
def succeeded : Option redisReply → Bool
  | none => false
  | some (.ERROR _) => false
  | some _ => true

/-- The values a list of the store has gained: those of the RPUSH commands on its
key that succeeded, in order. -/
def appended (key : String) (t : List Action) : List String :=
  t.filterMap fun a =>
    match a with
    | .redisCommand (.RPUSH k v) reply => if k = key ∧ succeeded reply = true then some v else none
    | _ => none

/-- Whether an action is anything but a redis command that did not succeed. -/
def actionSucceeded : Action → Bool
  | .redisCommand _ reply => succeeded reply
  | _ => true

/-- Every redis command of the history has succeeded. -/
def allSucceeded (t : List Action) : Prop :=
  ∀ a ∈ t, actionSucceeded a = true

instance (t : List Action) : Decidable (allSucceeded t) := by
  unfold allSucceeded
  exact inferInstance

/-- Whether `wtap_open_offline` opens the file. -/
def opens (fs : String → Option (List wtap_rec)) (filename : String) : Bool :=
  (fs filename).isSome

/-- The name `process_file` has still to push on PCAPDJ_PROCESSED, if any. -/
def toPush (fs : String → Option (List wtap_rec)) (filename : String) : FilePC → List String
  | .update_next_file => if opens fs filename then [filename] else []
  | .wait_auth _ => if opens fs filename then [filename] else []
  | .open_offline => if opens fs filename then [filename] else []
  | .ret => []
  | _ => [filename]

/-- Whether `process_file` has still to count the file in `num_files` (1) or not
(0). -/
def toOpen (fs : String → Option (List wtap_rec)) (filename : String) : FilePC → Nat
  | .update_next_file => if opens fs filename then 1 else 0
  | .wait_auth _ => if opens fs filename then 1 else 0
  | .open_offline => if opens fs filename then 1 else 0
  | .inc_files _ => 1
  | _ => 0

/-- What holds of the history and of `num_files` after every schedule from `init`:
the records written and those of the file in hand still to be written are the
records of the popped files, in order; the names pushed on PCAPDJ_PROCESSED and
the one still to be pushed are the popped names whose file opens; `num_files`
counts them. -/
def QueueInv (fs : String → Option (List wtap_rec)) : PC × Globals → Prop
  | (.file filename p, g) =>
    dumped g.trace ++ toDump fs filename p = (popped g.trace).flatMap (records fs) ∧
    pushed RQUEUE g.trace ++ toPush fs filename p = (popped g.trace).filter (opens fs) ∧
    (g.stats.num_files + toOpen fs filename p) % U64 =
      ((popped g.trace).filter (opens fs)).length % U64 ∧
    g.stats.num_files < U64
  | (_, g) =>
    dumped g.trace = (popped g.trace).flatMap (records fs) ∧
    pushed RQUEUE g.trace = (popped g.trace).filter (opens fs) ∧
    g.stats.num_files % U64 = ((popped g.trace).filter (opens fs)).length % U64 ∧
    g.stats.num_files < U64

/-- A complete run on the queue `a.pcap`, `missing.pcap`, `b.pcap`: the second file
does not open; the run is suspended while the first record of `a.pcap` is being
written and resumed during the check of the second. -/
def threeJobs : List Event :=
  [.step none, .step (some (.STRING "a.pcap")), .step (some (.INTEGER 1)), .step none,
    .step (some (.INTEGER 0)), .step (some (.INTEGER 1)), .step (some (.INTEGER 1)),
    .step none, .step none,
    .step none, .step none, .step none, .signal .SIGUSR1, .step none, .step none, .step none,
    .step none,
    .step none, .step none, .step none, .signal .SIGUSR1, .step none, .step none, .step none,
    .step none, .step none, .step none,
    .step none, .step (some (.INTEGER 1)),
    .step (some (.STRING "missing.pcap")), .step (some (.INTEGER 2)), .step none,
    .step (some (.INTEGER 1)), .step (some (.INTEGER 1)), .step none,
    .step (some (.STRING "b.pcap")), .step (some (.INTEGER 3)), .step none,
    .step (some (.INTEGER 1)), .step (some (.INTEGER 1)), .step none, .step none,
    .step none, .step none, .step none, .step none, .step none, .step none, .step none,
    .step none, .step (some (.INTEGER 2)),
    .step (some .NIL), .step (some (.STATUS "OK")), .step (some (.INTEGER 1))]

/-- A poll of the authorization set in the history. -/
def pollAction (filename : String) (reply : Option redisReply) : Action :=
  .redisCommand (.SISMEMBER AKEY filename) reply

/-- None of the replies of a list of polls is the integer 1. -/
def unauthorized (polls : List (Option redisReply)) : Prop :=
  ∀ r ∈ polls, r ≠ some (.INTEGER 1)

/-- What `wait_auth_to_proceed` has done since it was entered with the history
`base`, by the point it is at: only polls on `filename`, none answered by 1
while it polls; the poll answered by 1 is the last one, and it has returned only
after that poll and one SREM of `filename`. -/
def AuthInv (filename : String) (base : List Action) : AuthPC × Globals → Prop
  | (.set_state, g) => g.trace = base
  | (.poll, g) =>
    ∃ polls, unauthorized polls ∧ g.trace = base ++ polls.map (pollAction filename)
  | (.del, g) =>
    ∃ polls, unauthorized polls ∧
      g.trace = base ++ polls.map (pollAction filename) ++
        [pollAction filename (some (.INTEGER 1))]
  | (.ret, g) =>
    ∃ polls r1, unauthorized polls ∧
      g.trace = base ++ polls.map (pollAction filename) ++
        [pollAction filename (some (.INTEGER 1)), .redisCommand (.SREM AKEY filename) r1]

/-- The history of a complete handshake on `filename`: one RPUSH of the name on
PCAPDJ_NEXT, the polls that were not answered by 1, the poll answered by 1, the
SREM of the name. -/
def handshakeTrace (filename : String) (r0 : Option redisReply)
    (polls : List (Option redisReply)) (r1 : Option redisReply) : List Action :=
  [.redisCommand (.RPUSH NEXTJOB filename) r0] ++ polls.map (pollAction filename) ++
    [pollAction filename (some (.INTEGER 1)), .redisCommand (.SREM AKEY filename) r1]

/-- The actions of `process_file` on the file itself: opening it, writing a record,
pushing its name on PCAPDJ_PROCESSED. -/
def fileAction (filename : String) : Action → Bool
  | .wtap_open_offline f _ => f = filename
  | .wtap_dump _ => true
  | .redisCommand (.RPUSH key value) _ => key = RQUEUE ∧ value = filename
  | _ => false

/-- What `process_file` has done since it was entered with the history `base`, by the
point it is at: nothing before the RPUSH on PCAPDJ_NEXT; during the handshake,
that RPUSH and what `wait_auth_to_proceed` has done; from the opening of the
file on, one complete handshake followed by actions on the file only. -/
def HandshakeInv (filename : String) (base : List Action) : FilePC × Globals → Prop
  | (.update_next_file, g) => g.trace = base
  | (.wait_auth p, g) =>
    ∃ r0, AuthInv filename (base ++ [.redisCommand (.RPUSH NEXTJOB filename) r0]) (p, g) ∧
      p ≠ .ret
  | (_, g) =>
    ∃ r0 polls r1 tail, unauthorized polls ∧
      g.trace = base ++ handshakeTrace filename r0 polls r1 ++ tail ∧
      ∀ a ∈ tail, fileAction filename a = true

/-- The points of `process_file` between the return of `suspend_pcapdj_if_needed`
for a record and the call of `wtap_dump` on it. -/
def atWriteFile : FilePC → Bool
  | .suspend .ret _ _ => true
  | .set_feed _ _ => true
  | .dump _ _ => true
  | _ => false

/-- The points of the main flow between the return of `suspend_pcapdj_if_needed`
for a record and the call of `wtap_dump` on it. -/
def atWrite : PC → Bool
  | .file _ p => atWriteFile p
  | _ => false

/-- No SIGUSR1 of the schedule is delivered while the main flow is between the
return of `suspend_pcapdj_if_needed` and the call of `wtap_dump`. -/
def noToggleBeforeWrite (main : Option redisReply → PC → Globals → PC × Globals) :
    List Event → PC × Globals → Bool
  | [], _ => true
  | e :: evs, c =>
    !(decide (e = .signal .SIGUSR1) && atWrite c.1) &&
      noToggleBeforeWrite main evs (exec main e c)

/-- A run in which SIGUSR1 is delivered after the check of the first record of
`a.pcap` has found the flag clear and before the record is written. -/
def toggleAfterCheck : List Event :=
  [.step none, .step (some (.STRING "a.pcap")), .step (some (.INTEGER 1)), .step none,
    .step (some (.INTEGER 1)), .step (some (.INTEGER 1)), .step none, .step none, .step none,
    .step none, .signal .SIGUSR1, .step none]

/-- A run in which SIGUSR1 is delivered while the first record of `a.pcap` is being
read, so that the check finds the flag set and waits until the second SIGUSR1. -/
def toggleBeforeCheck : List Event :=
  [.step none, .step (some (.STRING "a.pcap")), .step (some (.INTEGER 1)), .step none,
    .step (some (.INTEGER 1)), .step (some (.INTEGER 1)), .step none, .step none,
    .signal .SIGUSR1, .step none, .step none, .step none, .step none, .signal .SIGUSR1,
    .step none, .step none]

/-- A statement of the main flow whose command, if it sends one, is answered by the
integer 1. -/
def answered : Event := .step (some (.INTEGER 1))

/-- The statements of one iteration of the feed loop, with no signal. -/
def recordSchedule : List Event :=
  [answered, answered, answered, answered, answered, answered, answered]

/-- A cooperative schedule for one job: the LPOP is answered by the name, the first
poll by 1, no signal is delivered. -/
def jobSchedule (fs : String → Option (List wtap_rec)) (filename : String) : List Event :=
  [.step (some (.STRING filename)), answered, answered, answered, answered] ++
    (answered ::
      match fs filename with
      | none => []
      | some recs => answered :: (recs.flatMap (fun _ => recordSchedule) ++ [answered, answered]))

/-- A cooperative schedule for a queue: every job in turn, then the nil reply and
the two closing commands. -/
def queueSchedule (fs : String → Option (List wtap_rec)) (queue : List String) : List Event :=
  .step none :: (queue.flatMap (jobSchedule fs) ++ [.step (some .NIL), answered, answered])

/-- The records written to the dumper by the events of a schedule that were
delivered while the suspend flag was set, along the run of the schedule from
`c`: for each event, what the history has gained in written records when the
flag was set just before the event. -/
def writtenWhileSuspended (main : Option redisReply → PC → Globals → PC × Globals) :
    List Event → PC × Globals → List wtap_rec
  | [], _ => []
  | e :: evs, c =>
    (if c.2.sigusr1_suspend ≠ 0 then
        (dumped (exec main e c).2.trace).drop (dumped c.2.trace).length
      else []) ++
      writtenWhileSuspended main evs (exec main e c)

/-- A cooperative schedule for `process_file`: every command is answered, the first
poll by 1, no signal is delivered. -/
def fileSchedule (fs : String → Option (List wtap_rec)) (filename : String) : List Event :=
  [answered, answered, answered, answered] ++
    (answered ::
      match fs filename with
      | none => []
      | some recs => answered :: (recs.flatMap (fun _ => recordSchedule) ++ [answered, answered]))

/-! ## General facts on schedules -/

theorem run_nil {P : Type} (main : Option redisReply → P → Globals → P × Globals)
    (c : P × Globals) : run main [] c = c := rfl

theorem run_cons {P : Type} (main : Option redisReply → P → Globals → P × Globals)
    (e : Event) (evs : List Event) (c : P × Globals) :
    run main (e :: evs) c = run main evs (exec main e c) := rfl

theorem run_append {P : Type} (main : Option redisReply → P → Globals → P × Globals)
    (evs1 evs2 : List Event) (c : P × Globals) :
    run main (evs1 ++ evs2) c = run main evs2 (run main evs1 c) := by
  simp [run, List.foldl_append]

theorem run_snoc {P : Type} (main : Option redisReply → P → Globals → P × Globals)
    (evs : List Event) (e : Event) (c : P × Globals) :
    run main (evs ++ [e]) c = exec main e (run main evs c) := by
  simp [run, List.foldl_append]

/-- A property that holds initially and is kept by every event holds after every
schedule. -/
theorem run_invariant {P : Type} (main : Option redisReply → P → Globals → P × Globals)
    (I : P × Globals → Prop) (hstep : ∀ e c, I c → I (exec main e c)) :
    ∀ (evs : List Event) (c : P × Globals), I c → I (run main evs c) := by
  intro evs
  induction evs with
  | nil => intro c hc; exact hc
  | cons e evs ih => intro c hc; exact ih _ (hstep e c hc)

/-! ## What the main flow leaves alone -/

theorem wait_auth_to_proceed_frame (filename : String) (reply : Option redisReply)
    (p : AuthPC) (g : Globals) :
    MainFrame g (wait_auth_to_proceed filename reply p g).2 := by
  cases p
  · simp [wait_auth_to_proceed, MainFrame]
  · simp only [wait_auth_to_proceed]
    split
    · split <;> simp [MainFrame, redisCommand]
    · simp [MainFrame, redisCommand]
    · simp [MainFrame, redisCommand]
  · simp [wait_auth_to_proceed, MainFrame, delete_auth_file, redisCommand]
  · simp [wait_auth_to_proceed, MainFrame]

theorem process_file_wait_auth_snd (fs : String → Option (List wtap_rec)) (filename : String)
    (reply : Option redisReply) (p : AuthPC) (g : Globals) :
    (process_file fs filename reply (.wait_auth p) g).2 =
      (wait_auth_to_proceed filename reply p g).2 := by
  simp only [process_file]
  split <;> simp_all

theorem process_file_frame (fs : String → Option (List wtap_rec)) (filename : String)
    (reply : Option redisReply) (p : FilePC) (g : Globals) :
    MainFrame g (process_file fs filename reply p g).2 := by
  cases p with
  | wait_auth p =>
    rw [process_file_wait_auth_snd]
    exact wait_auth_to_proceed_frame filename reply p g
  | open_offline =>
    simp only [process_file]
    split <;> simp [MainFrame]
  | read rest => cases rest <;> simp [process_file, MainFrame]
  | suspend p rec rest =>
    simp only [process_file]
    split <;> simp [MainFrame]
  | _ => simp [process_file, MainFrame, update_next_file, update_processed_queue, redisCommand]

theorem process_input_queue_file_snd (fs : String → Option (List wtap_rec)) (ctx_err : Bool)
    (redis_queue : String) (reply : Option redisReply) (filename : String) (p : FilePC)
    (g : Globals) :
    (process_input_queue fs ctx_err redis_queue reply (.file filename p) g).2 =
      (process_file fs filename reply p g).2 := by
  simp only [process_input_queue]
  split <;> simp_all

theorem process_input_queue_frame (fs : String → Option (List wtap_rec)) (ctx_err : Bool)
    (redis_queue : String) (reply : Option redisReply) (pc : PC) (g : Globals) :
    MainFrame g (process_input_queue fs ctx_err redis_queue reply pc g).2 := by
  cases pc with
  | connect =>
    simp only [process_input_queue]
    split <;> simp [MainFrame]
  | lpop =>
    simp only [process_input_queue]
    split <;> simp [MainFrame, redisCommand]
  | file filename p =>
    rw [process_input_queue_file_snd]
    exact process_file_frame fs filename reply p g
  | _ => simp [process_input_queue, MainFrame, delete_next_file_queue, redisCommand]

theorem exec_step_frame {P : Type} (main : Option redisReply → P → Globals → P × Globals)
    (hframe : ∀ reply p g, MainFrame g (main reply p g).2) (reply : Option redisReply)
    (c : P × Globals) : MainFrame c.2 (exec main (.step reply) c).2 :=
  hframe reply c.1 c.2

/-! ## The SIGUSR1 toggle -/

theorem int_not_eq (x : Int) : ~~~ x = -x - 1 := by
  cases x with
  | ofNat n =>
    show Int.negSucc n = -(Int.ofNat n) - 1
    rw [Int.negSucc_eq]; simp; omega
  | negSucc n =>
    show Int.ofNat n = -(Int.negSucc n) - 1
    rw [Int.negSucc_eq]; simp

/-- The toggle when the flag is not all ones: the suspend branch. -/
theorem sig_handler_suspend (g : Globals) (h : g.sigusr1_suspend ≠ -1) :
    sig_handler .SIGUSR1 g =
      { g with
        sigusr1_suspend := -g.sigusr1_suspend - 1
        stats :=
          { g.stats with
            oldstate := g.stats.state
            state := PCAPDJ_I_STATE_SUSPEND
            num_suspend := (g.stats.num_suspend + 1) % U64 } } := by
  have h1 : -g.sigusr1_suspend - 1 ≠ 0 := by omega
  simp [sig_handler, int_not_eq, h1]

/-- The toggle when the flag is all ones: the resume branch. -/
theorem sig_handler_resume (g : Globals) (h : g.sigusr1_suspend = -1) :
    sig_handler .SIGUSR1 g =
      { g with
        sigusr1_suspend := 0
        stats :=
          { g.stats with
            state := g.stats.oldstate
            oldstate := PCAPDJ_I_STATE_SUSPEND } } := by
  simp [sig_handler, int_not_eq, h]

theorem sig_handler_twice (g : Globals)
    (h : g.sigusr1_suspend = 0 ∨ g.stats.state = PCAPDJ_I_STATE_SUSPEND) :
    (sig_handler .SIGUSR1 (sig_handler .SIGUSR1 g)).stats.state = g.stats.state ∧
    (sig_handler .SIGUSR1 (sig_handler .SIGUSR1 g)).sigusr1_suspend = g.sigusr1_suspend := by
  by_cases h1 : g.sigusr1_suspend = -1
  · have h2 : g.stats.state = PCAPDJ_I_STATE_SUSPEND := by
      rcases h with h | h
      · omega
      · exact h
    rw [sig_handler_resume g h1, sig_handler_suspend _ (by simp)]
    simp [h1, h2]
  · rw [sig_handler_suspend g h1]
    by_cases h3 : g.sigusr1_suspend = 0
    · rw [sig_handler_resume _ (by simp [h3])]
      simp [h3]
    · have h2 : g.stats.state = PCAPDJ_I_STATE_SUSPEND := by
        rcases h with h | h
        · exact absurd h h3
        · exact h
      rw [sig_handler_suspend _ (by simp; omega)]
      simp [h2]

/-- C5, as amended: when the suspend flag is clear, or the state is already
Suspended, before the first toggle, an even number of consecutive SIGUSR1
toggles gives back the state and the flag it started from. -/
theorem sig_handler_even_toggles_restore (g : Globals) (k : Nat)
    (h : g.sigusr1_suspend = 0 ∨ g.stats.state = PCAPDJ_I_STATE_SUSPEND) :
    ((sig_handler .SIGUSR1)^[2 * k] g).stats.state = g.stats.state ∧
    ((sig_handler .SIGUSR1)^[2 * k] g).sigusr1_suspend = g.sigusr1_suspend := by
  induction k with
  | zero => simp
  | succ k ih =>
    have e : 2 * (k + 1) = 2 + 2 * k := by ring
    rw [e, Function.iterate_add_apply]
    have h2 := sig_handler_twice _
      (show ((sig_handler .SIGUSR1)^[2 * k] g).sigusr1_suspend = 0 ∨
          ((sig_handler .SIGUSR1)^[2 * k] g).stats.state = PCAPDJ_I_STATE_SUSPEND by
        rcases h with h | h
        · left; rw [ih.2]; exact h
        · right; rw [ih.1]; exact h)
    simp only [Function.iterate_succ, Function.iterate_zero, Function.comp_apply, id_eq]
    exact ⟨h2.1.trans ih.1, h2.2.trans ih.2⟩

/-- Witness of C5 as amended: four toggles from the globals left by `init`, with
the state set to Feeding. -/
theorem sig_handler_even_toggles_restore_witness :
    ({ init with stats := { init.stats with state := PCAPDJ_I_STATE_FEED } } :
        Globals).sigusr1_suspend = 0 ∧
    ((sig_handler .SIGUSR1)^[2 * 2]
        { init with stats := { init.stats with state := PCAPDJ_I_STATE_FEED } }).stats.state =
      PCAPDJ_I_STATE_FEED :=
  ⟨by decide,
    (sig_handler_even_toggles_restore
      { init with stats := { init.stats with state := PCAPDJ_I_STATE_FEED } } 2
      (Or.inl (by decide))).1⟩

/-- C5 fails as stated: a SIGUSR1 before the first file is announced suspends the
program, the main flow then writes AUTH_WAIT in `wait_auth_to_proceed` while the
flag is set, and two more toggles leave the state Suspended, not AUTH_WAIT. -/
theorem sig_handler_even_toggles_counterexample :
    (run (process_input_queue (fun _ => none) false "PCAPDJ_IN_QUEUE")
        suspendedBeforeAuthWait (.connect, init)).2.sigusr1_suspend = -1 ∧
    (run (process_input_queue (fun _ => none) false "PCAPDJ_IN_QUEUE")
        suspendedBeforeAuthWait (.connect, init)).2.stats.state = PCAPDJ_I_STATE_AUTH_WAIT ∧
    ((sig_handler .SIGUSR1)^[2 * 1]
        (run (process_input_queue (fun _ => none) false "PCAPDJ_IN_QUEUE")
          suspendedBeforeAuthWait (.connect, init)).2).stats.state = PCAPDJ_I_STATE_SUSPEND ∧
    ((sig_handler .SIGUSR1)^[2 * 1]
        (run (process_input_queue (fun _ => none) false "PCAPDJ_IN_QUEUE")
          suspendedBeforeAuthWait (.connect, init)).2).stats.state ≠
      (run (process_input_queue (fun _ => none) false "PCAPDJ_IN_QUEUE")
        suspendedBeforeAuthWait (.connect, init)).2.stats.state := by
  decide

/-! ## The suspend counter -/

theorem toggles_cons_step (reply : Option redisReply) (evs : List Event) :
    toggles (.step reply :: evs) = toggles evs := by
  simp [toggles]

theorem toggles_cons_SIGUSR2 (evs : List Event) :
    toggles (.signal .SIGUSR2 :: evs) = toggles evs := by
  simp [toggles]

theorem toggles_cons_SIGUSR1 (evs : List Event) :
    toggles (.signal .SIGUSR1 :: evs) = toggles evs + 1 := by
  simp [toggles]

/-- Along any schedule, the flag stays 0 or -1, the suspend counter grows by the
number of toggles that found the flag clear, and that number is fixed by the
number of toggles and the initial flag. -/
theorem run_toggles {P : Type} (main : Option redisReply → P → Globals → P × Globals)
    (hframe : ∀ reply p g, MainFrame g (main reply p g).2) :
    ∀ (evs : List Event) (c : P × Globals),
      (c.2.sigusr1_suspend = 0 ∨ c.2.sigusr1_suspend = -1) →
      c.2.stats.num_suspend < U64 →
      (run main evs c).2.stats.num_suspend =
          (c.2.stats.num_suspend + risingToggles main evs c) % U64 ∧
        risingToggles main evs c =
          (if c.2.sigusr1_suspend = 0 then (toggles evs + 1) / 2 else toggles evs / 2) ∧
        (run main evs c).2.sigusr1_suspend =
          (if toggles evs % 2 = 0 then c.2.sigusr1_suspend else -c.2.sigusr1_suspend - 1) := by
  intro evs
  induction evs with
  | nil =>
    intro c _ hlt
    simp [run, risingToggles, toggles, Nat.mod_eq_of_lt hlt]
  | cons e evs ih =>
    intro c hflag hlt
    rw [run_cons]
    cases e with
    | step reply =>
      obtain ⟨f1, f2, _, _⟩ := exec_step_frame main hframe reply c
      obtain ⟨i1, i2, i3⟩ := ih (exec main (.step reply) c) (by rw [f1]; exact hflag)
        (by rw [f2]; exact hlt)
      rw [f1] at i2 i3
      rw [f2] at i1
      simp only [risingToggles, toggles_cons_step]
      simp [i1, i2, i3]
    | signal s =>
      cases s with
      | SIGUSR2 =>
        obtain ⟨i1, i2, i3⟩ := ih (exec main (.signal .SIGUSR2) c) hflag hlt
        simp only [risingToggles, toggles_cons_SIGUSR2]
        simp only [exec, sig_handler] at i1 i2 i3 ⊢
        simp [i1, i2, i3]
      | SIGUSR1 =>
        simp only [risingToggles, toggles_cons_SIGUSR1]
        rcases hflag with h0 | h1
        · have hs := sig_handler_suspend c.2 (by omega)
          have e1 : (exec main (.signal .SIGUSR1) c).2.sigusr1_suspend = -1 := by
            simp [exec, hs, h0]
          have e2 : (exec main (.signal .SIGUSR1) c).2.stats.num_suspend =
              (c.2.stats.num_suspend + 1) % U64 := by
            simp [exec, hs]
          obtain ⟨i1, i2, i3⟩ := ih (exec main (.signal .SIGUSR1) c) (Or.inr e1)
            (by rw [e2]; exact Nat.mod_lt _ (by decide))
          rw [e1] at i2 i3
          rw [e2] at i1
          rw [i1, i2, i3, h0]
          refine ⟨?_, ?_, ?_⟩
          · simp only [and_self, if_true, Nat.mod_add_mod]
            congr 1
            omega
          · simp
            omega
          · split <;> split <;> omega
        · have hs := sig_handler_resume c.2 h1
          have e1 : (exec main (.signal .SIGUSR1) c).2.sigusr1_suspend = 0 := by
            simp [exec, hs]
          have e2 : (exec main (.signal .SIGUSR1) c).2.stats.num_suspend =
              c.2.stats.num_suspend := by
            simp [exec, hs]
          obtain ⟨i1, i2, i3⟩ := ih (exec main (.signal .SIGUSR1) c) (Or.inl e1)
            (by rw [e2]; exact hlt)
          rw [e1] at i2 i3
          rw [e2] at i1
          rw [i1, i2, i3, h1]
          refine ⟨?_, ?_, ?_⟩
          · simp
          · simp
          · split <;> split <;> omega

/-- C6: from the globals left by `init`, after any schedule with `m` SIGUSR1 toggles
interleaved with steps of the main flow (and SIGUSR2 signals), the suspend
counter is the number of toggles that found the flag clear, which is
`ceil(m/2)`, modulo `2 ^ 64`, and the flag is set exactly when `m` is odd; a
toggle that finds the flag clear sets it, saves the state in `oldstate`, sets the
state to Suspended and adds 1 to the counter modulo `2 ^ 64`; a toggle that finds
the flag set clears it and leaves the counter as it is. -/
theorem num_suspend_counts_rising_toggles (fs : String → Option (List wtap_rec))
    (ctx_err : Bool) (redis_queue : String) (evs : List Event) :
    (run (process_input_queue fs ctx_err redis_queue) evs (.connect, init)).2.stats.num_suspend =
        risingToggles (process_input_queue fs ctx_err redis_queue) evs (.connect, init) % U64 ∧
      risingToggles (process_input_queue fs ctx_err redis_queue) evs (.connect, init) =
        (toggles evs + 1) / 2 ∧
      ((run (process_input_queue fs ctx_err redis_queue) evs
          (.connect, init)).2.sigusr1_suspend ≠ 0 ↔ toggles evs % 2 = 1) ∧
      (∀ g : Globals, g.sigusr1_suspend = 0 →
        (sig_handler .SIGUSR1 g).sigusr1_suspend = -1 ∧
        (sig_handler .SIGUSR1 g).stats.oldstate = g.stats.state ∧
        (sig_handler .SIGUSR1 g).stats.state = PCAPDJ_I_STATE_SUSPEND ∧
        (sig_handler .SIGUSR1 g).stats.num_suspend = (g.stats.num_suspend + 1) % U64) ∧
      (∀ g : Globals, g.sigusr1_suspend = -1 →
        (sig_handler .SIGUSR1 g).sigusr1_suspend = 0 ∧
        (sig_handler .SIGUSR1 g).stats.num_suspend = g.stats.num_suspend) := by
  obtain ⟨h1, h2, h3⟩ := run_toggles (process_input_queue fs ctx_err redis_queue)
    (process_input_queue_frame fs ctx_err redis_queue) evs (.connect, init)
    (by left; rfl) (by decide)
  refine ⟨?_, ?_, ?_, ?_, ?_⟩
  · simpa [init] using h1
  · simpa [init] using h2
  · rw [h3]
    simp only [init]
    split <;> omega
  · intro g hg
    rw [sig_handler_suspend g (by omega)]
    simp [hg]
  · intro g hg
    rw [sig_handler_resume g hg]
    simp

/-! ## The state while the flag is clear -/

theorem StateInv_exec {P : Type} (main : Option redisReply → P → Globals → P × Globals)
    (hframe : ∀ reply p g, MainFrame g (main reply p g).2) (e : Event) (c : P × Globals)
    (h : StateInv c.2) : StateInv (exec main e c).2 := by
  obtain ⟨hf, ha, ho⟩ := h
  cases e with
  | step reply =>
    obtain ⟨f1, _, f3, f4⟩ := exec_step_frame main hframe reply c
    refine ⟨by rw [f1]; exact hf, ?_, ?_⟩
    · rw [f1]
      intro h0
      rcases f4 with f4 | f4 | f4
      · rw [f4]; exact ha h0
      · rw [f4]; right; left; rfl
      · rw [f4]; right; right; rfl
    · rw [f1, f3]; exact ho
  | signal s =>
    cases s with
    | SIGUSR2 => exact ⟨hf, ha, ho⟩
    | SIGUSR1 =>
      rcases hf with h0 | h1
      · have hs := sig_handler_suspend c.2 (by omega)
        simp only [exec, hs, StateInv, h0]
        refine ⟨by decide, ?_, ?_⟩
        · intro h; exact absurd h (by decide)
        · intro _; exact ha h0
      · have hs := sig_handler_resume c.2 h1
        simp only [exec, hs, StateInv]
        refine ⟨by simp, ?_, ?_⟩
        · intro _; exact ho h1
        · intro h; exact absurd h (by decide)

theorem StateInv_init : StateInv init := by
  refine ⟨Or.inl rfl, ?_, ?_⟩
  · intro _; left; rfl
  · intro h; exact absurd h (by decide)

/-- C10: in every state reached from `init` by a schedule that interleaves signals
with the statements of the main flow, when the suspend flag is clear the state
is Running, AwaitingAuthorization or Feeding; it is not Suspended and it is one
of the four defined values. -/
theorem state_active_when_flag_clear (fs : String → Option (List wtap_rec)) (ctx_err : Bool)
    (redis_queue : String) (evs : List Event)
    (hclear : (run (process_input_queue fs ctx_err redis_queue) evs
      (.connect, init)).2.sigusr1_suspend = 0) :
    activeState (run (process_input_queue fs ctx_err redis_queue) evs
        (.connect, init)).2.stats.state ∧
      (run (process_input_queue fs ctx_err redis_queue) evs
        (.connect, init)).2.stats.state ≠ PCAPDJ_I_STATE_SUSPEND ∧
      (run (process_input_queue fs ctx_err redis_queue) evs
        (.connect, init)).2.stats.state < 4 := by
  have hinv := run_invariant (process_input_queue fs ctx_err redis_queue)
    (fun c => StateInv c.2)
    (fun e c h => StateInv_exec _ (process_input_queue_frame fs ctx_err redis_queue) e c h)
    evs (.connect, init) StateInv_init
  have ha := hinv.2.1 hclear
  refine ⟨ha, ?_, ?_⟩
  · rcases ha with h | h | h <;> rw [h] <;> decide
  · rcases ha with h | h | h <;> rw [h] <;> decide

/-- Witness of C10: a run suspended during the handshake and resumed after it ends
with the flag clear. -/
theorem state_active_when_flag_clear_witness :
    (run (process_input_queue (fun _ => none) false "PCAPDJ_IN_QUEUE") suspendAndResume
      (.connect, init)).2.sigusr1_suspend = 0 ∧
    activeState (run (process_input_queue (fun _ => none) false "PCAPDJ_IN_QUEUE")
      suspendAndResume (.connect, init)).2.stats.state :=
  ⟨by decide,
    (state_active_when_flag_clear (fun _ => none) false "PCAPDJ_IN_QUEUE" suspendAndResume
      (by decide)).1⟩

/-! ## The end of the queue -/

theorem sig_handler_trace (s : Signal) (g : Globals) : (sig_handler s g).trace = g.trace := by
  cases s
  · simp only [sig_handler]
    split <;> rfl
  · rfl

theorem mainSteps_cons_signal (s : Signal) (evs : List Event) :
    mainSteps (.signal s :: evs) = mainSteps evs := by
  simp [mainSteps, isStep]

theorem mainSteps_cons_step (reply : Option redisReply) (evs : List Event) :
    mainSteps (.step reply :: evs) = mainSteps evs + 1 := by
  simp [mainSteps, isStep]

/-- Once `process_input_queue` has returned nothing more happens. -/
theorem run_ret (fs : String → Option (List wtap_rec)) (ctx_err : Bool) (redis_queue : String)
    (status : Nat) :
    ∀ (evs : List Event) (g : Globals),
      (run (process_input_queue fs ctx_err redis_queue) evs (.ret status, g)).1 = .ret status ∧
      (run (process_input_queue fs ctx_err redis_queue) evs (.ret status, g)).2.trace =
        g.trace := by
  intro evs
  induction evs with
  | nil => intro g; exact ⟨rfl, rfl⟩
  | cons e evs ih =>
    intro g
    rw [run_cons]
    cases e with
    | signal s =>
      have h := ih (sig_handler s g)
      rw [sig_handler_trace] at h
      exact h
    | step reply => exact ih g

/-- From the call of `delete_next_file_queue`, one statement of the main flow sends
the DEL and returns EXIT_SUCCESS. -/
theorem run_delete_next_file_queue (fs : String → Option (List wtap_rec)) (ctx_err : Bool)
    (redis_queue : String) :
    ∀ (evs : List Event) (g : Globals), 1 ≤ mainSteps evs →
      (run (process_input_queue fs ctx_err redis_queue) evs (.delete_next_file_queue, g)).1 =
        .ret EXIT_SUCCESS ∧
      ∃ r, (run (process_input_queue fs ctx_err redis_queue) evs
          (.delete_next_file_queue, g)).2.trace =
        g.trace ++ [.redisCommand (.DEL NEXTJOB) r] := by
  intro evs
  induction evs with
  | nil => intro g h; simp [mainSteps] at h
  | cons e evs ih =>
    intro g h
    rw [run_cons]
    cases e with
    | signal s =>
      rw [mainSteps_cons_signal] at h
      have h1 := ih (sig_handler s g) h
      rw [sig_handler_trace] at h1
      exact h1
    | step reply =>
      have h1 := run_ret fs ctx_err redis_queue EXIT_SUCCESS evs (delete_next_file_queue reply g)
      exact ⟨h1.1, reply, h1.2⟩

/-- From the SET of the completion key, two statements of the main flow send the
SET and the DEL and return EXIT_SUCCESS. -/
theorem run_set_done (fs : String → Option (List wtap_rec)) (ctx_err : Bool)
    (redis_queue : String) :
    ∀ (evs : List Event) (g : Globals), 2 ≤ mainSteps evs →
      (run (process_input_queue fs ctx_err redis_queue) evs (.set_done, g)).1 =
        .ret EXIT_SUCCESS ∧
      ∃ r1 r2, (run (process_input_queue fs ctx_err redis_queue) evs (.set_done, g)).2.trace =
        g.trace ++ [.redisCommand (.SET PCAPDJ_STATE PCAPDJ_STATE_DONE) r1,
          .redisCommand (.DEL NEXTJOB) r2] := by
  intro evs
  induction evs with
  | nil => intro g h; simp [mainSteps] at h
  | cons e evs ih =>
    intro g h
    rw [run_cons]
    cases e with
    | signal s =>
      rw [mainSteps_cons_signal] at h
      have h1 := ih (sig_handler s g) h
      rw [sig_handler_trace] at h1
      exact h1
    | step reply =>
      rw [mainSteps_cons_step] at h
      obtain ⟨h1, r2, h2⟩ := run_delete_next_file_queue fs ctx_err redis_queue evs
        (redisCommand (.SET PCAPDJ_STATE PCAPDJ_STATE_DONE) reply g) (by omega)
      refine ⟨h1, reply, r2, ?_⟩
      simp only [exec, process_input_queue]
      rw [h2]
      simp [redisCommand]

/-- C3: whatever the globals, when the LPOP of the queue is answered by a nil reply,
then as soon as the main flow has executed two more statements (with any signals
in between and whatever the replies) `process_input_queue` has returned
EXIT_SUCCESS, and what it has done since the LPOP is exactly to send
`SET PCAPDJ_STATE DONE` and then `DEL PCAPDJ_NEXT`: no further LPOP. -/
theorem nil_pop_sets_done_and_returns (fs : String → Option (List wtap_rec)) (ctx_err : Bool)
    (redis_queue : String) (g : Globals) (evs : List Event) (h : 2 ≤ mainSteps evs) :
    (run (process_input_queue fs ctx_err redis_queue) (.step (some .NIL) :: evs)
        (.lpop, g)).1 = .ret EXIT_SUCCESS ∧
      EXIT_SUCCESS = 0 ∧
      ∃ r1 r2, (run (process_input_queue fs ctx_err redis_queue) (.step (some .NIL) :: evs)
          (.lpop, g)).2.trace =
        g.trace ++ [.redisCommand (.LPOP redis_queue) (some .NIL),
          .redisCommand (.SET PCAPDJ_STATE PCAPDJ_STATE_DONE) r1,
          .redisCommand (.DEL NEXTJOB) r2] := by
  rw [run_cons]
  obtain ⟨h1, r1, r2, h2⟩ := run_set_done fs ctx_err redis_queue evs
    (redisCommand (.LPOP redis_queue) (some .NIL) g) h
  refine ⟨h1, rfl, r1, r2, ?_⟩
  simp only [exec, process_input_queue]
  rw [h2]
  simp [redisCommand]

/-- Witness of C3: the queue is empty at the start; the first LPOP is answered by
nil and the run is suspended and resumed while it winds up. -/
theorem nil_pop_sets_done_and_returns_witness :
    run (process_input_queue (fun _ => none) false "PCAPDJ_IN_QUEUE") [.step none]
      (.connect, init) = (.lpop, init) ∧
    2 ≤ mainSteps windUp ∧
    (run (process_input_queue (fun _ => none) false "PCAPDJ_IN_QUEUE")
      (.step (some .NIL) :: windUp) (.lpop, init)).1 = .ret EXIT_SUCCESS :=
  ⟨by decide, by decide,
    (nil_pop_sets_done_and_returns (fun _ => none) false "PCAPDJ_IN_QUEUE" init windUp
      (by decide)).1⟩

/-! ## Commands without a reply -/

/-- C8 fails as stated.  When the connection is lost after the LPOP that finds the
queue empty, the SET and the DEL get no reply and the run returns EXIT_SUCCESS.
When it is lost during the handshake, the SISMEMBER is sent again and again and
the run does not return. -/
theorem missing_reply_counterexample :
    (run (process_input_queue (fun _ => none) false "PCAPDJ_IN_QUEUE") connectionLostAfterPop
        (.connect, init)).1 = .ret EXIT_SUCCESS ∧
    (run (process_input_queue (fun _ => none) false "PCAPDJ_IN_QUEUE") connectionLostAfterPop
        (.connect, init)).2.trace =
      [.redisCommand (.LPOP "PCAPDJ_IN_QUEUE") (some .NIL),
        .redisCommand (.SET PCAPDJ_STATE PCAPDJ_STATE_DONE) none,
        .redisCommand (.DEL NEXTJOB) none] ∧
    EXIT_SUCCESS ≠ EXIT_FAILURE ∧
    (run (process_input_queue (fun _ => none) false "PCAPDJ_IN_QUEUE") connectionLostInHandshake
        (.connect, init)).1 = .file "a.pcap" (.wait_auth .poll) ∧
    (run (process_input_queue (fun _ => none) false "PCAPDJ_IN_QUEUE") connectionLostInHandshake
        (.connect, init)).2.trace =
      [.redisCommand (.LPOP "PCAPDJ_IN_QUEUE") (some (.STRING "a.pcap")),
        .redisCommand (.RPUSH NEXTJOB "a.pcap") (some (.INTEGER 1)),
        .redisCommand (.SISMEMBER AKEY "a.pcap") none,
        .redisCommand (.SISMEMBER AKEY "a.pcap") none,
        .redisCommand (.SISMEMBER AKEY "a.pcap") none] := by
  decide

/-- C8, as amended: when the LPOP of the queue gets no reply, the run returns
EXIT_FAILURE at once and does nothing more, whatever follows in the schedule.
A missing reply to any other command does not abort the run: after the RPUSH
to PCAPDJ_NEXT, the SREM, the RPUSH to PCAPDJ_PROCESSED, the SET and the DEL the
main flow goes where it goes after a reply, and after a SISMEMBER the poll is
repeated. -/
theorem lpop_without_reply_aborts (fs : String → Option (List wtap_rec)) (ctx_err : Bool)
    (redis_queue : String) (filename : String) (g : Globals) (evs : List Event)
    (r : Option redisReply) :
    ((run (process_input_queue fs ctx_err redis_queue) (.step none :: evs) (.lpop, g)).1 =
        .ret EXIT_FAILURE ∧
      (run (process_input_queue fs ctx_err redis_queue) (.step none :: evs) (.lpop, g)).2.trace =
        g.trace ++ [.redisCommand (.LPOP redis_queue) none]) ∧
    (process_file fs filename none .update_next_file g).1 =
      (process_file fs filename r .update_next_file g).1 ∧
    (wait_auth_to_proceed filename none .poll g =
      (.poll, redisCommand (.SISMEMBER AKEY filename) none g)) ∧
    (wait_auth_to_proceed filename none .del g).1 =
      (wait_auth_to_proceed filename r .del g).1 ∧
    (process_file fs filename none .update_processed_queue g).1 =
      (process_file fs filename r .update_processed_queue g).1 ∧
    (process_input_queue fs ctx_err redis_queue none .set_done g).1 =
      (process_input_queue fs ctx_err redis_queue r .set_done g).1 ∧
    (process_input_queue fs ctx_err redis_queue none .delete_next_file_queue g).1 =
      .ret EXIT_SUCCESS := by
  refine ⟨?_, rfl, rfl, rfl, rfl, rfl, rfl⟩
  rw [run_cons]
  have h := run_ret fs ctx_err redis_queue EXIT_FAILURE evs
    (redisCommand (.LPOP redis_queue) none g)
  exact ⟨h.1, h.2⟩

/-! ## The statements of `process_file`, one by one -/

theorem process_file_wait_auth_set_state (fs : String → Option (List wtap_rec))
    (filename : String) (reply : Option redisReply) (g : Globals) :
    process_file fs filename reply (.wait_auth .set_state) g =
      (.wait_auth .poll,
        { g with stats := { g.stats with state := PCAPDJ_I_STATE_AUTH_WAIT } }) := rfl

theorem wait_auth_to_proceed_poll (filename : String) (reply : Option redisReply)
    (g : Globals) :
    wait_auth_to_proceed filename reply .poll g =
      (if reply = some (.INTEGER 1) then .del else .poll,
        redisCommand (.SISMEMBER AKEY filename) reply g) := by
  simp only [wait_auth_to_proceed]
  split
  · rename_i n
    by_cases h : n = 1
    · simp [h]
    · simp [h]
  · rename_i r hr
    have : some r ≠ some (.INTEGER 1) := by
      intro h
      injection h with h
      exact hr 1 h
    simp [this]
  · simp

theorem process_file_wait_auth_poll (fs : String → Option (List wtap_rec))
    (filename : String) (reply : Option redisReply) (g : Globals) :
    process_file fs filename reply (.wait_auth .poll) g =
      (.wait_auth (if reply = some (.INTEGER 1) then .del else .poll),
        redisCommand (.SISMEMBER AKEY filename) reply g) := by
  simp only [process_file, wait_auth_to_proceed_poll]
  by_cases h : reply = some (.INTEGER 1) <;> simp [h]

theorem process_file_wait_auth_del (fs : String → Option (List wtap_rec))
    (filename : String) (reply : Option redisReply) (g : Globals) :
    process_file fs filename reply (.wait_auth .del) g =
      (.open_offline, delete_auth_file filename reply g) := rfl

theorem process_file_wait_auth_ret (fs : String → Option (List wtap_rec))
    (filename : String) (reply : Option redisReply) (g : Globals) :
    process_file fs filename reply (.wait_auth .ret) g = (.open_offline, g) := rfl

theorem process_file_suspend (fs : String → Option (List wtap_rec))
    (filename : String) (reply : Option redisReply) (p : SuspPC) (rec : wtap_rec)
    (rest : List wtap_rec) (g : Globals) :
    process_file fs filename reply (.suspend p rec rest) g =
      (if g.sigusr1_suspend ≠ 0 ∧ p ≠ .ret then .suspend .spin rec rest
        else .set_feed rec rest, g) := by
  cases p <;> by_cases h : g.sigusr1_suspend = 0 <;>
    simp [process_file, suspend_pcapdj_if_needed, h]

/-! ## The packet counter and the length accumulators -/

theorem sig_handler_counters (s : Signal) (g : Globals) :
    (sig_handler s g).stats.num_files = g.stats.num_files ∧
    (sig_handler s g).stats.num_packets = g.stats.num_packets ∧
    (sig_handler s g).stats.sum_cap_lengths = g.stats.sum_cap_lengths ∧
    (sig_handler s g).stats.sum_lengths = g.stats.sum_lengths := by
  cases s
  · simp only [sig_handler]
    split <;> simp
  · simp [sig_handler]

theorem capSum_cons (rec : wtap_rec) (rest : List wtap_rec) :
    capSum (rec :: rest) = rec.caplen + capSum rest := by
  simp [capSum]

/-- One statement of `process_file` keeps, modulo `2 ^ 64`, the sum of each counter
and of what is still to be added to it. -/
theorem process_file_counters_step (fs : String → Option (List wtap_rec)) (filename : String)
    (reply : Option redisReply) (p : FilePC) (g : Globals) :
    ((process_file fs filename reply p g).2.stats.num_packets +
          (toCount fs filename (process_file fs filename reply p g).1).length) % U64 =
        (g.stats.num_packets + (toCount fs filename p).length) % U64 ∧
      ((process_file fs filename reply p g).2.stats.sum_cap_lengths +
          capSum (toAddCap fs filename (process_file fs filename reply p g).1)) % U64 =
        (g.stats.sum_cap_lengths + capSum (toAddCap fs filename p)) % U64 ∧
      ((process_file fs filename reply p g).2.stats.sum_lengths +
          capSum (toAddLen fs filename (process_file fs filename reply p g).1)) % U64 =
        (g.stats.sum_lengths + capSum (toAddLen fs filename p)) % U64 ∧
      (countersInRange g.stats → countersInRange (process_file fs filename reply p g).2.stats) := by
  have hpos : 0 < U64 := by decide
  cases p with
  | wait_auth p =>
    cases p
    · simp [process_file_wait_auth_set_state, toAddLen, toAddCap, toCount, toDump, upcoming,
        countersInRange]
    · rw [process_file_wait_auth_poll]
      simp [toAddLen, toAddCap, toCount, toDump, upcoming, redisCommand, countersInRange]
    · simp [process_file_wait_auth_del, toAddLen, toAddCap, toCount, toDump, upcoming,
        delete_auth_file, redisCommand, countersInRange]
    · simp [process_file_wait_auth_ret, toAddLen, toAddCap, toCount, toDump, upcoming]
  | open_offline =>
    simp only [process_file]
    cases h : fs filename <;>
      simp [toAddLen, toAddCap, toCount, toDump, upcoming, records, h, countersInRange, capSum]
  | read rest =>
    cases rest <;> simp [process_file, toAddLen, toAddCap, toCount, toDump, upcoming]
  | suspend p rec rest =>
    rw [process_file_suspend]
    split <;> simp [toAddLen, toAddCap, toCount, toDump, upcoming]
  | inc_packets rec rest =>
    simp only [process_file, toAddLen, toAddCap, toCount, toDump, upcoming, countersInRange,
      List.length_cons, Nat.mod_add_mod, true_and]
    refine ⟨by congr 1; omega, fun h => ⟨Nat.mod_lt _ hpos, h.2⟩⟩
  | add_cap rec rest =>
    simp only [process_file, toAddLen, toAddCap, toCount, toDump, upcoming, countersInRange,
      capSum_cons, Nat.mod_add_mod, true_and]
    refine ⟨by congr 1; omega, fun h => ⟨h.1, Nat.mod_lt _ hpos, h.2.2⟩⟩
  | add_len rec rest =>
    simp only [process_file, toAddLen, toAddCap, toCount, toDump, upcoming, countersInRange,
      capSum_cons, Nat.mod_add_mod, true_and]
    refine ⟨by congr 1; omega, fun h => ⟨h.1, h.2.1, Nat.mod_lt _ hpos⟩⟩
  | _ =>
    simp [process_file, toAddLen, toAddCap, toCount, toDump, upcoming, update_next_file,
      update_processed_queue, redisCommand, countersInRange]

/-- After any schedule, each counter plus what is still to be added to it is what
it was at the entry of `process_file`. -/
theorem process_file_counters_run (fs : String → Option (List wtap_rec)) (filename : String)
    (evs : List Event) (c : FilePC × Globals) (hrange : countersInRange c.2.stats) :
    ((run (process_file fs filename) evs c).2.stats.num_packets +
          (toCount fs filename (run (process_file fs filename) evs c).1).length) % U64 =
        (c.2.stats.num_packets + (toCount fs filename c.1).length) % U64 ∧
      ((run (process_file fs filename) evs c).2.stats.sum_cap_lengths +
          capSum (toAddCap fs filename (run (process_file fs filename) evs c).1)) % U64 =
        (c.2.stats.sum_cap_lengths + capSum (toAddCap fs filename c.1)) % U64 ∧
      ((run (process_file fs filename) evs c).2.stats.sum_lengths +
          capSum (toAddLen fs filename (run (process_file fs filename) evs c).1)) % U64 =
        (c.2.stats.sum_lengths + capSum (toAddLen fs filename c.1)) % U64 ∧
      countersInRange (run (process_file fs filename) evs c).2.stats := by
  induction evs generalizing c with
  | nil => exact ⟨rfl, rfl, rfl, hrange⟩
  | cons e evs ih =>
    rw [run_cons]
    cases e with
    | signal s =>
      obtain ⟨_, s2, s3, s4⟩ := sig_handler_counters s c.2
      have h := ih (exec (process_file fs filename) (.signal s) c)
        (by simp only [exec, countersInRange, s2, s3, s4]; exact hrange)
      simp only [exec, s2, s3, s4] at h ⊢
      exact h
    | step reply =>
      obtain ⟨h1, h2, h3, h4⟩ := process_file_counters_step fs filename reply c.1 c.2
      obtain ⟨i1, i2, i3, i4⟩ := ih (exec (process_file fs filename) (.step reply) c) (h4 hrange)
      exact ⟨i1.trans h1, i2.trans h2, i3.trans h3, i4⟩

theorem process_input_queue_file (fs : String → Option (List wtap_rec)) (ctx_err : Bool)
    (redis_queue : String) (reply : Option redisReply) (filename : String) (p : FilePC)
    (g : Globals) :
    process_input_queue fs ctx_err redis_queue reply (.file filename p) g =
      (if (process_file fs filename reply p g).1 = .ret then .lpop
        else .file filename (process_file fs filename reply p g).1,
        (process_file fs filename reply p g).2) := by
  simp only [process_input_queue]
  split
  · rename_i h; simp [h]
  · rename_i p1 g1 hne h
    have : p1 ≠ .ret := fun e => hne e
    simp [h, this]

theorem SumInv_step (fs : String → Option (List wtap_rec)) (filename : String)
    (reply : Option redisReply) (p : FilePC) (g : Globals) (h : SumInv (p, g)) :
    SumInv (process_file fs filename reply p g) := by
  cases p with
  | wait_auth p =>
    cases p
    · simpa [process_file_wait_auth_set_state, SumInv] using h
    · rw [process_file_wait_auth_poll]
      split <;> simpa [SumInv, redisCommand] using h
    · simpa [process_file_wait_auth_del, SumInv, delete_auth_file, redisCommand] using h
    · simpa [process_file_wait_auth_ret, SumInv] using h
  | open_offline =>
    simp only [process_file]
    split <;> simpa [SumInv] using h
  | read rest => cases rest <;> simpa [process_file, SumInv] using h
  | suspend p rec rest =>
    rw [process_file_suspend]
    split <;> simpa [SumInv] using h
  | add_cap rec rest =>
    simp only [SumInv] at h
    simp [process_file, SumInv, h]
  | add_len rec rest =>
    simp only [SumInv] at h
    simp [process_file, SumInv, h]
  | _ =>
    simpa [process_file, SumInv, update_next_file, update_processed_queue, redisCommand] using h

theorem SumInv_ret (g : Globals) (h : SumInv (.ret, g)) :
    g.stats.sum_cap_lengths = g.stats.sum_lengths := by
  simpa [SumInv] using h

theorem SumInvPC_exec (fs : String → Option (List wtap_rec)) (ctx_err : Bool)
    (redis_queue : String) (e : Event) (c : PC × Globals) (h : SumInvPC c) :
    SumInvPC (exec (process_input_queue fs ctx_err redis_queue) e c) := by
  obtain ⟨pc, g⟩ := c
  cases e with
  | signal s =>
    obtain ⟨_, _, s3, s4⟩ := sig_handler_counters s g
    cases pc with
    | file filename p =>
      cases p <;> simp only [exec, SumInvPC, SumInv, s3, s4] at h ⊢ <;> exact h
    | _ =>
      simp only [exec, SumInvPC, s3, s4] at h ⊢
      exact h
  | step reply =>
    cases pc with
    | connect =>
      simp only [exec, process_input_queue]
      split <;> simpa [SumInvPC] using h
    | lpop =>
      simp only [exec, process_input_queue]
      split <;> simpa [SumInvPC, SumInv, redisCommand] using h
    | file filename p =>
      have h1 := SumInv_step fs filename reply p g (by simpa [SumInvPC] using h)
      simp only [exec, process_input_queue_file]
      split
      · rename_i hret
        have h2 : SumInv (.ret, (process_file fs filename reply p g).2) := by
          rw [← hret]; exact h1
        simpa [SumInvPC] using SumInv_ret _ h2
      · simpa [SumInvPC] using h1
    | _ => simpa [exec, process_input_queue, SumInvPC, delete_next_file_queue, redisCommand] using h

/-- C9 fails as stated: in the state reached from `init` when the main flow has added
the captured length of the first record of `a.pcap` to `sum_cap_lengths` and not
yet to `sum_lengths`, the two accumulators differ (a SIGUSR2 delivered there
prints 60 and 0). -/
theorem sum_lengths_counterexample :
    (run (process_input_queue twoFiles false "PCAPDJ_IN_QUEUE") stopBetweenAdditions
        (.connect, init)).1 =
      .file "a.pcap" (.add_len { caplen := 60, len := 1514, data := [1] }
        [{ caplen := 40, len := 40, data := [2] }]) ∧
    (run (process_input_queue twoFiles false "PCAPDJ_IN_QUEUE") stopBetweenAdditions
        (.connect, init)).2.stats.sum_cap_lengths = 60 ∧
    (run (process_input_queue twoFiles false "PCAPDJ_IN_QUEUE") stopBetweenAdditions
        (.connect, init)).2.stats.sum_lengths = 0 ∧
    (run (process_input_queue twoFiles false "PCAPDJ_IN_QUEUE") stopBetweenAdditions
        (.connect, init)).2.stats.sum_cap_lengths ≠
      (run (process_input_queue twoFiles false "PCAPDJ_IN_QUEUE") stopBetweenAdditions
        (.connect, init)).2.stats.sum_lengths := by
  decide

theorem run_file_record (fs : String → Option (List wtap_rec)) (filename : String)
    (rec : wtap_rec) (rest : List wtap_rec) (g : Globals) (hg : g.sigusr1_suspend = 0) :
    ∃ g1, run (process_file fs filename) recordSchedule (.read (rec :: rest), g) =
        (.read rest, g1) ∧ g1.sigusr1_suspend = 0 := by
  refine ⟨(run (process_file fs filename) recordSchedule (.read (rec :: rest), g)).2,
    Prod.ext ?_ rfl, ?_⟩
  · simp [recordSchedule, answered, run, exec, process_file, suspend_pcapdj_if_needed, hg]
  · simp [recordSchedule, answered, run, exec, process_file, suspend_pcapdj_if_needed, hg]

theorem run_file_feed (fs : String → Option (List wtap_rec)) (filename : String) :
    ∀ (recs : List wtap_rec) (g : Globals), g.sigusr1_suspend = 0 →
      (run (process_file fs filename)
        (recs.flatMap (fun _ => recordSchedule) ++ [answered, answered])
        (.read recs, g)).1 = .ret := by
  intro recs
  induction recs with
  | nil => intro g _; rfl
  | cons rec rest ih =>
    intro g hg
    rw [List.flatMap_cons, List.append_assoc, run_append]
    obtain ⟨g2, d1, d2⟩ := run_file_record fs filename rec rest g hg
    rw [d1]
    exact ih g2 d2

theorem run_file_handshake (fs : String → Option (List wtap_rec)) (filename : String)
    (g : Globals) (hg : g.sigusr1_suspend = 0) :
    ∃ g1, run (process_file fs filename) [answered, answered, answered, answered]
        (.update_next_file, g) = (.open_offline, g1) ∧ g1.sigusr1_suspend = 0 := by
  refine ⟨(run (process_file fs filename) [answered, answered, answered, answered]
        (.update_next_file, g)).2, Prod.ext ?_ rfl, ?_⟩
  · simp [answered, run, exec, process_file, wait_auth_to_proceed]
  · simp [answered, run, exec, process_file, wait_auth_to_proceed, update_next_file,
      delete_auth_file, redisCommand, hg]

/-- When the flag is clear, every command is answered, the first poll is answered by
1 and no signal is delivered, `process_file` returns, whatever the file. -/
theorem process_file_returns (fs : String → Option (List wtap_rec)) (filename : String)
    (g : Globals) (hg : g.sigusr1_suspend = 0) :
    (run (process_file fs filename) (fileSchedule fs filename) (.update_next_file, g)).1 =
      .ret := by
  unfold fileSchedule
  rw [run_append]
  obtain ⟨g2, d1, d2⟩ := run_file_handshake fs filename g hg
  rw [d1]
  cases hfs : fs filename with
  | none => simp [answered, run, exec, process_file, hfs]
  | some recs =>
    simp only [run_cons]
    have h := run_file_feed fs filename recs
      { g2 with
        stats := { g2.stats with num_files := (g2.stats.num_files + 1) % U64 }
        trace := g2.trace ++ [.wtap_open_offline filename true] } d2
    rw [← h]
    simp [answered, exec, process_file, hfs]

/-- C9, as amended: `process_file` returns when the flag is clear, every command is
answered, the first poll is answered by 1 and no signal is delivered, and
whenever it returns, under any schedule, on a file that opens and yields the
records `recs`, it has increased `num_packets` by the number of records and both
`sum_cap_lengths` and `sum_lengths` by the sum of the captured lengths, modulo
`2 ^ 64`; when it returns on a file that does not open the three are unchanged;
and in every state reached from `init`, except between the addition of a record
to `sum_cap_lengths` and its addition to `sum_lengths`, the two accumulators are
equal. -/
theorem process_file_counters (fs : String → Option (List wtap_rec)) (filename : String)
    (g : Globals) (evs : List Event) (hrange : countersInRange g.stats)
    (hret : (run (process_file fs filename) evs (.update_next_file, g)).1 = .ret) :
    (∀ recs, fs filename = some recs →
      (run (process_file fs filename) evs (.update_next_file, g)).2.stats.num_packets =
          (g.stats.num_packets + recs.length) % U64 ∧
        (run (process_file fs filename) evs (.update_next_file, g)).2.stats.sum_cap_lengths =
          (g.stats.sum_cap_lengths + capSum recs) % U64 ∧
        (run (process_file fs filename) evs (.update_next_file, g)).2.stats.sum_lengths =
          (g.stats.sum_lengths + capSum recs) % U64) ∧
    (fs filename = none →
      (run (process_file fs filename) evs (.update_next_file, g)).2.stats.num_packets =
          g.stats.num_packets ∧
        (run (process_file fs filename) evs (.update_next_file, g)).2.stats.sum_cap_lengths =
          g.stats.sum_cap_lengths ∧
        (run (process_file fs filename) evs (.update_next_file, g)).2.stats.sum_lengths =
          g.stats.sum_lengths) ∧
    (∀ (ctx_err : Bool) (redis_queue : String) (sched : List Event),
      (∀ f rec rest, (run (process_input_queue fs ctx_err redis_queue) sched
          (.connect, init)).1 ≠ .file f (.add_len rec rest)) →
      (run (process_input_queue fs ctx_err redis_queue) sched
          (.connect, init)).2.stats.sum_cap_lengths =
        (run (process_input_queue fs ctx_err redis_queue) sched
          (.connect, init)).2.stats.sum_lengths) ∧
    (∀ (codec : String → Option (List wtap_rec)) (name : String) (g0 : Globals),
      countersInRange g0.stats → g0.sigusr1_suspend = 0 →
      (run (process_file codec name) (fileSchedule codec name) (.update_next_file, g0)).1 =
          .ret ∧
        (run (process_file codec name) (fileSchedule codec name)
            (.update_next_file, g0)).2.stats.num_packets =
          (g0.stats.num_packets + (records codec name).length) % U64 ∧
        (run (process_file codec name) (fileSchedule codec name)
            (.update_next_file, g0)).2.stats.sum_cap_lengths =
          (g0.stats.sum_cap_lengths + capSum (records codec name)) % U64 ∧
        (run (process_file codec name) (fileSchedule codec name)
            (.update_next_file, g0)).2.stats.sum_lengths =
          (g0.stats.sum_lengths + capSum (records codec name)) % U64) := by
  have key : ∀ (codec : String → Option (List wtap_rec)) (name : String) (g0 : Globals)
      (sched : List Event), countersInRange g0.stats →
      (run (process_file codec name) sched (.update_next_file, g0)).1 = .ret →
      (run (process_file codec name) sched (.update_next_file, g0)).2.stats.num_packets =
          (g0.stats.num_packets + (records codec name).length) % U64 ∧
        (run (process_file codec name) sched (.update_next_file, g0)).2.stats.sum_cap_lengths =
          (g0.stats.sum_cap_lengths + capSum (records codec name)) % U64 ∧
        (run (process_file codec name) sched (.update_next_file, g0)).2.stats.sum_lengths =
          (g0.stats.sum_lengths + capSum (records codec name)) % U64 := by
    intro codec name g0 sched hr hr1
    obtain ⟨h1, h2, h3, h4, h5, h6⟩ :=
      process_file_counters_run codec name sched (.update_next_file, g0) hr
    rw [hr1] at h1 h2 h3
    simp only [toAddLen, toAddCap, toCount, toDump, upcoming, List.length_nil, Nat.add_zero]
      at h1 h2 h3
    have c0 : capSum [] = 0 := rfl
    rw [c0, Nat.add_zero] at h2 h3
    rw [Nat.mod_eq_of_lt h4] at h1
    rw [Nat.mod_eq_of_lt h5] at h2
    rw [Nat.mod_eq_of_lt h6] at h3
    exact ⟨h1, h2, h3⟩
  obtain ⟨h1, h2, h3⟩ := key fs filename g evs hrange hret
  refine ⟨?_, ?_, ?_, ?_⟩
  · intro recs hrecs
    simp only [records, hrecs, Option.getD_some] at h1 h2 h3
    exact ⟨h1, h2, h3⟩
  · intro hnone
    have c0 : capSum [] = 0 := rfl
    simp only [records, hnone, Option.getD_none, List.length_nil, c0, Nat.add_zero]
      at h1 h2 h3
    rw [Nat.mod_eq_of_lt hrange.1] at h1
    rw [Nat.mod_eq_of_lt hrange.2.1] at h2
    rw [Nat.mod_eq_of_lt hrange.2.2] at h3
    exact ⟨h1, h2, h3⟩
  · intro ctx_err redis_queue sched hne
    have hinv := run_invariant (process_input_queue fs ctx_err redis_queue) SumInvPC
      (SumInvPC_exec fs ctx_err redis_queue) sched (.connect, init) rfl
    generalize run (process_input_queue fs ctx_err redis_queue) sched (.connect, init) = c
      at hinv hne
    obtain ⟨pc, g1⟩ := c
    cases pc with
    | file f p =>
      cases p with
      | add_len rec rest => exact absurd rfl (hne f rec rest)
      | _ => simpa [SumInvPC, SumInv] using hinv
    | _ => simpa [SumInvPC] using hinv
  · intro codec name g0 hr hflag
    have hr1 := process_file_returns codec name g0 hflag
    exact ⟨hr1, key codec name g0 _ hr hr1⟩

/-- Witness of C9 as amended: `process_file` on `a.pcap`, two records of captured
lengths 60 and 40, with a suspension in the middle. -/
theorem process_file_counters_witness :
    countersInRange init.stats ∧
    (run (process_file twoFiles "a.pcap") feedTwoRecords (.update_next_file, init)).1 = .ret ∧
    (run (process_file twoFiles "a.pcap") feedTwoRecords
      (.update_next_file, init)).2.stats.sum_lengths = (0 + (60 + (40 + 0))) % U64 :=
  ⟨by decide, by decide,
    ((process_file_counters twoFiles "a.pcap" init feedTwoRecords (by decide) (by decide)).1
      [{ caplen := 60, len := 1514, data := [1] }, { caplen := 40, len := 40, data := [2] }]
      (by decide)).2.2⟩

/-! ## The order of the records and the list of processed files -/

theorem NEXTJOB_ne_RQUEUE : NEXTJOB ≠ RQUEUE := by decide

/-- One statement of `process_file` pops nothing, and keeps what is written plus what
is still to be written, what is pushed plus what is still to be pushed, what
is counted plus what is still to be counted. -/
theorem process_file_trace_step (fs : String → Option (List wtap_rec)) (filename : String)
    (reply : Option redisReply) (p : FilePC) (g : Globals) :
    dumped (process_file fs filename reply p g).2.trace ++
          toDump fs filename (process_file fs filename reply p g).1 =
        dumped g.trace ++ toDump fs filename p ∧
      popped (process_file fs filename reply p g).2.trace = popped g.trace ∧
      pushed RQUEUE (process_file fs filename reply p g).2.trace ++
          toPush fs filename (process_file fs filename reply p g).1 =
        pushed RQUEUE g.trace ++ toPush fs filename p ∧
      ((process_file fs filename reply p g).2.stats.num_files +
          toOpen fs filename (process_file fs filename reply p g).1) % U64 =
        (g.stats.num_files + toOpen fs filename p) % U64 ∧
      (g.stats.num_files < U64 → (process_file fs filename reply p g).2.stats.num_files < U64) := by
  have hpos : 0 < U64 := by decide
  have hne := NEXTJOB_ne_RQUEUE
  cases p with
  | wait_auth p =>
    cases p
    · simp [process_file_wait_auth_set_state, toDump, upcoming, toPush, toOpen]
    · rw [process_file_wait_auth_poll]
      simp [toDump, upcoming, toPush, toOpen, redisCommand, dumped, popped, pushed]
    · simp [process_file_wait_auth_del, toDump, upcoming, toPush, toOpen, delete_auth_file,
        redisCommand, dumped, popped, pushed]
    · simp [process_file_wait_auth_ret, toDump, upcoming, toPush, toOpen]
  | open_offline =>
    simp only [process_file]
    cases h : fs filename <;>
      simp [toDump, upcoming, toPush, toOpen, records, opens, h, dumped, popped, pushed]
  | inc_files recs =>
    simp only [process_file, toDump, upcoming, toPush, toOpen, Nat.add_zero, Nat.mod_mod,
      true_and]
    exact fun _ => Nat.mod_lt _ hpos
  | read rest =>
    cases rest <;> simp [process_file, toDump, upcoming, toPush, toOpen]
  | suspend p rec rest =>
    rw [process_file_suspend]
    split <;> simp [toDump, upcoming, toPush, toOpen]
  | _ =>
    simp [process_file, toDump, upcoming, toPush, toOpen, update_next_file,
      update_processed_queue, redisCommand, dumped, popped, pushed, hne]

theorem QueueInv_exec (fs : String → Option (List wtap_rec)) (ctx_err : Bool)
    (redis_queue : String) (e : Event) (c : PC × Globals) (h : QueueInv fs c) :
    QueueInv fs (exec (process_input_queue fs ctx_err redis_queue) e c) := by
  obtain ⟨pc, g⟩ := c
  cases e with
  | signal s =>
    obtain ⟨s1, _, _, _⟩ := sig_handler_counters s g
    have st := sig_handler_trace s g
    cases pc <;> simp only [exec, QueueInv, s1, st] at h ⊢ <;> exact h
  | step reply =>
    cases pc with
    | connect =>
      simp only [exec, process_input_queue]
      split <;> simpa [QueueInv] using h
    | lpop =>
      simp only [QueueInv] at h
      obtain ⟨h1, h2, h3, h4⟩ := h
      simp only [exec, process_input_queue]
      split
      · simp [QueueInv, redisCommand, dumped, popped, pushed]
        exact ⟨h1, h2, h3, h4⟩
      · rename_i str
        simp only [QueueInv, redisCommand, dumped, popped, pushed, toDump, upcoming, toPush,
          toOpen, List.filterMap_append, List.filterMap_cons, List.filterMap_nil,
          List.append_nil, List.flatMap_append, List.filter_append] at h1 h2 h3 ⊢
        refine ⟨?_, ?_, ?_, h4⟩
        · rw [h1]; simp [List.flatMap]
        · rw [h2]
          by_cases ho : opens fs str = true <;> simp [ho]
        · by_cases ho : opens fs str = true
          · simp only [ho, if_true, List.filter_cons_of_pos, List.filter_nil, List.length_append,
              List.length_cons, List.length_nil]
            rw [Nat.add_mod, h3, ← Nat.add_mod]
          · simp only [ho, Nat.add_zero, List.length_append]
            simpa [ho] using h3
      · simp [QueueInv, redisCommand, dumped, popped, pushed]
        exact ⟨h1, h2, h3, h4⟩
      · rename_i r hr1 hr2
        cases r <;> simp [QueueInv, redisCommand, dumped, popped, pushed] <;>
          first
            | exact ⟨h1, h2, h3, h4⟩
            | exact absurd rfl (hr1 _)
    | file filename p =>
      simp only [QueueInv] at h
      obtain ⟨h1, h2, h3, h4⟩ := h
      obtain ⟨t1, t2, t3, t4, t5⟩ := process_file_trace_step fs filename reply p g
      simp only [exec, process_input_queue_file]
      split
      · rename_i hret
        rw [hret] at t1 t3 t4
        simp only [toDump, upcoming, toPush, toOpen, List.append_nil, Nat.add_zero] at t1 t3 t4
        simp only [QueueInv]
        rw [t1, t2, t3, t4]
        exact ⟨h1, h2, h3, t5 h4⟩
      · simp only [QueueInv]
        rw [t1, t2, t3, t4]
        exact ⟨h1, h2, h3, t5 h4⟩
    | set_done =>
      simpa [exec, process_input_queue, QueueInv, redisCommand, dumped, popped, pushed] using h
    | delete_next_file_queue =>
      simpa [exec, process_input_queue, QueueInv, delete_next_file_queue, redisCommand, dumped,
        popped, pushed] using h
    | ret status => simpa [exec, process_input_queue, QueueInv] using h

theorem QueueInv_init (fs : String → Option (List wtap_rec)) : QueueInv fs (.connect, init) := by
  simp [QueueInv, init, dumped, popped, pushed, U64]

theorem QueueInv_run (fs : String → Option (List wtap_rec)) (ctx_err : Bool)
    (redis_queue : String) (evs : List Event) :
    QueueInv fs (run (process_input_queue fs ctx_err redis_queue) evs (.connect, init)) :=
  run_invariant (process_input_queue fs ctx_err redis_queue) (QueueInv fs)
    (QueueInv_exec fs ctx_err redis_queue) evs (.connect, init) (QueueInv_init fs)

theorem appended_eq_pushed (key : String) (t : List Action) (h : allSucceeded t) :
    appended key t = pushed key t := by
  unfold appended pushed
  apply List.filterMap_congr
  intro a ha
  have hs := h a ha
  cases a with
  | redisCommand c reply =>
    cases c <;> simp_all [actionSucceeded]
  | _ => rfl

theorem length_filter_eq_sub (p : String → Bool) (l : List String) :
    (l.filter p).length = l.length - (l.filter (fun a => !p a)).length := by
  induction l with
  | nil => rfl
  | cons a l ih =>
    have hle : (l.filter (fun a => !p a)).length ≤ l.length := List.length_filter_le _ _
    by_cases h : p a = true
    · simp only [List.filter_cons, h, if_true, List.length_cons, Bool.not_true]
      simp only [Bool.false_eq_true, if_false]
      omega
    · simp only [List.filter_cons, h, List.length_cons]
      simp only [Bool.not_eq_true] at h
      simp only [h, Bool.not_false, if_true, List.length_cons, Bool.false_eq_true, if_false]
      omega

theorem run_record (fs : String → Option (List wtap_rec)) (ctx_err : Bool)
    (redis_queue : String) (filename : String) (rec : wtap_rec) (rest : List wtap_rec)
    (g : Globals) (hg : g.sigusr1_suspend = 0) :
    ∃ g1, run (process_input_queue fs ctx_err redis_queue) recordSchedule
        (.file filename (.read (rec :: rest)), g) = (.file filename (.read rest), g1) ∧
      g1.sigusr1_suspend = 0 ∧ popped g1.trace = popped g.trace := by
  refine ⟨(run (process_input_queue fs ctx_err redis_queue) recordSchedule
        (.file filename (.read (rec :: rest)), g)).2, Prod.ext ?_ rfl, ?_, ?_⟩
  · simp [recordSchedule, answered, run, exec, process_input_queue_file, process_file,
      suspend_pcapdj_if_needed, hg]
  · simp [recordSchedule, answered, run, exec, process_input_queue_file, process_file,
      suspend_pcapdj_if_needed, hg]
  · simp [recordSchedule, answered, run, exec, process_input_queue_file, process_file,
      suspend_pcapdj_if_needed, hg, popped]

theorem run_feed (fs : String → Option (List wtap_rec)) (ctx_err : Bool) (redis_queue : String)
    (filename : String) :
    ∀ (recs : List wtap_rec) (g : Globals), g.sigusr1_suspend = 0 →
      ∃ g1, run (process_input_queue fs ctx_err redis_queue)
          (recs.flatMap (fun _ => recordSchedule) ++ [answered, answered])
          (.file filename (.read recs), g) = (.lpop, g1) ∧
        g1.sigusr1_suspend = 0 ∧ popped g1.trace = popped g.trace := by
  intro recs
  induction recs with
  | nil =>
    intro g hg
    refine ⟨_, rfl, ?_, ?_⟩
    · simpa [update_processed_queue, redisCommand] using hg
    · simp [answered, exec, process_input_queue_file, process_file, update_processed_queue,
        redisCommand, popped]
  | cons rec rest ih =>
    intro g hg
    rw [List.flatMap_cons, List.append_assoc, run_append]
    obtain ⟨g2, d1, d2, d3⟩ := run_record fs ctx_err redis_queue filename rec rest g hg
    rw [d1]
    obtain ⟨g1, e1, e2, e3⟩ := ih g2 d2
    exact ⟨g1, e1, e2, e3.trans d3⟩

theorem run_handshake (fs : String → Option (List wtap_rec)) (ctx_err : Bool)
    (redis_queue : String) (filename : String) (g : Globals) (hg : g.sigusr1_suspend = 0) :
    ∃ g1, run (process_input_queue fs ctx_err redis_queue)
        [.step (some (.STRING filename)), answered, answered, answered, answered] (.lpop, g) =
        (.file filename .open_offline, g1) ∧
      g1.sigusr1_suspend = 0 ∧ popped g1.trace = popped g.trace ++ [filename] := by
  refine ⟨(run (process_input_queue fs ctx_err redis_queue)
        [.step (some (.STRING filename)), answered, answered, answered, answered]
        (.lpop, g)).2, Prod.ext ?_ rfl, ?_, ?_⟩
  · simp [answered, run, exec, process_input_queue, process_input_queue_file,
      process_file, wait_auth_to_proceed]
  · simp [answered, run, exec, process_input_queue, process_input_queue_file,
      process_file, wait_auth_to_proceed, update_next_file, delete_auth_file,
      redisCommand, hg]
  · simp [answered, run, exec, process_input_queue, process_input_queue_file,
      process_file, wait_auth_to_proceed, update_next_file, delete_auth_file,
      redisCommand, popped]

theorem run_job (fs : String → Option (List wtap_rec)) (ctx_err : Bool) (redis_queue : String)
    (filename : String) (g : Globals) (hg : g.sigusr1_suspend = 0) :
    ∃ g1, run (process_input_queue fs ctx_err redis_queue) (jobSchedule fs filename)
        (.lpop, g) = (.lpop, g1) ∧
      g1.sigusr1_suspend = 0 ∧ popped g1.trace = popped g.trace ++ [filename] := by
  unfold jobSchedule
  rw [run_append]
  obtain ⟨g2, d1, d2, d3⟩ := run_handshake fs ctx_err redis_queue filename g hg
  rw [d1]
  cases hfs : fs filename with
  | none =>
    refine ⟨{ g2 with trace := g2.trace ++ [.wtap_open_offline filename false] }, ?_, d2, ?_⟩
    · simp [answered, run, exec, process_input_queue_file, process_file, hfs]
    · simpa [popped] using d3
  | some recs =>
    simp only [run_cons]
    obtain ⟨g1, e1, e2, e3⟩ := run_feed fs ctx_err redis_queue filename recs
      { g2 with
        stats := { g2.stats with num_files := (g2.stats.num_files + 1) % U64 }
        trace := g2.trace ++ [.wtap_open_offline filename true] } d2
    refine ⟨g1, ?_, e2, ?_⟩
    · rw [← e1]
      simp [answered, exec, process_input_queue_file, process_file, hfs]
    · rw [e3, ← d3]; simp [popped]

theorem run_queue (fs : String → Option (List wtap_rec)) (ctx_err : Bool) (redis_queue : String) :
    ∀ (queue : List String) (g : Globals), g.sigusr1_suspend = 0 →
      ∃ g1, run (process_input_queue fs ctx_err redis_queue) (queue.flatMap (jobSchedule fs))
          (.lpop, g) = (.lpop, g1) ∧
        g1.sigusr1_suspend = 0 ∧ popped g1.trace = popped g.trace ++ queue := by
  intro queue
  induction queue with
  | nil => intro g hg; exact ⟨g, rfl, hg, by simp⟩
  | cons f queue ih =>
    intro g hg
    rw [List.flatMap_cons, run_append]
    obtain ⟨g2, d1, d2, d3⟩ := run_job fs ctx_err redis_queue f g hg
    rw [d1]
    obtain ⟨g1, e1, e2, e3⟩ := ih g2 d2
    exact ⟨g1, e1, e2, by rw [e3, d3]; simp⟩

/-- For every queue there is a schedule under which `process_input_queue` returns
EXIT_SUCCESS after it has popped exactly the names of the queue: the one in
which every command is answered, every job is authorized at its first poll and
no signal is delivered. -/
theorem process_input_queue_returns (fs : String → Option (List wtap_rec))
    (redis_queue : String) (queue : List String) :
    (run (process_input_queue fs false redis_queue) (queueSchedule fs queue)
        (.connect, init)).1 = .ret EXIT_SUCCESS ∧
      popped (run (process_input_queue fs false redis_queue) (queueSchedule fs queue)
        (.connect, init)).2.trace = queue := by
  unfold queueSchedule
  rw [run_cons, run_append]
  obtain ⟨g1, e1, _, e3⟩ := run_queue fs false redis_queue queue init rfl
  have e0 : exec (process_input_queue fs false redis_queue) (.step none) (.connect, init) =
      (.lpop, init) := rfl
  rw [e0, e1]
  constructor
  · rfl
  · simp [answered, run, exec, process_input_queue, delete_next_file_queue, redisCommand, popped]
    simpa [init, popped] using e3

/-- C1: for every run of `process_input_queue` from `init` that returns, whatever the
replies, the signals and the point where each is delivered, the records written
to the dumper are, in order, the records of the first popped file in file order,
then those of the second, and so on; a file that does not open contributes
none.  And for every queue there is such a run: when every command is answered
and every job authorized, `process_input_queue` pops the names of the queue,
returns EXIT_SUCCESS and has written the records of the files of the queue, in
the order of the queue. -/
theorem records_in_queue_order (fs : String → Option (List wtap_rec)) (ctx_err : Bool)
    (redis_queue : String) (evs : List Event) (status : Nat)
    (hret : (run (process_input_queue fs ctx_err redis_queue) evs (.connect, init)).1 =
      .ret status) :
    dumped (run (process_input_queue fs ctx_err redis_queue) evs (.connect, init)).2.trace =
        (popped (run (process_input_queue fs ctx_err redis_queue) evs
          (.connect, init)).2.trace).flatMap (records fs) ∧
      ∀ queue : List String,
        (run (process_input_queue fs false redis_queue) (queueSchedule fs queue)
            (.connect, init)).1 = .ret EXIT_SUCCESS ∧
          popped (run (process_input_queue fs false redis_queue) (queueSchedule fs queue)
            (.connect, init)).2.trace = queue ∧
          dumped (run (process_input_queue fs false redis_queue) (queueSchedule fs queue)
            (.connect, init)).2.trace = queue.flatMap (records fs) := by
  have key : ∀ (e : Bool) (sched : List Event) (st : Nat),
      (run (process_input_queue fs e redis_queue) sched (.connect, init)).1 = .ret st →
      dumped (run (process_input_queue fs e redis_queue) sched (.connect, init)).2.trace =
        (popped (run (process_input_queue fs e redis_queue) sched
          (.connect, init)).2.trace).flatMap (records fs) := by
    intro e sched st hst
    have hinv := QueueInv_run fs e redis_queue sched
    generalize run (process_input_queue fs e redis_queue) sched (.connect, init) = c
      at hinv hst
    obtain ⟨pc, g⟩ := c
    simp only at hst
    subst hst
    exact hinv.1
  refine ⟨key ctx_err evs status hret, ?_⟩
  intro queue
  obtain ⟨h1, h2⟩ := process_input_queue_returns fs redis_queue queue
  refine ⟨h1, h2, ?_⟩
  rw [key false _ _ h1, h2]

/-- Witness of C1: the queue `a.pcap`, `missing.pcap`, `b.pcap`, with a suspension
inside the first file; the run returns and has written the two records of
`a.pcap` and then the record of `b.pcap`. -/
theorem records_in_queue_order_witness :
    (run (process_input_queue twoFiles false "PCAPDJ_IN_QUEUE") threeJobs (.connect, init)).1 =
      .ret EXIT_SUCCESS ∧
    popped (run (process_input_queue twoFiles false "PCAPDJ_IN_QUEUE") threeJobs
      (.connect, init)).2.trace = ["a.pcap", "missing.pcap", "b.pcap"] ∧
    dumped (run (process_input_queue twoFiles false "PCAPDJ_IN_QUEUE") threeJobs
      (.connect, init)).2.trace =
      (popped (run (process_input_queue twoFiles false "PCAPDJ_IN_QUEUE") threeJobs
        (.connect, init)).2.trace).flatMap (records twoFiles) :=
  ⟨by decide, by decide,
    (records_in_queue_order twoFiles false "PCAPDJ_IN_QUEUE" threeJobs EXIT_SUCCESS
      (by decide)).1⟩

/-- C2: for every run of `process_input_queue` from `init` that returns and in which
every store command succeeded, the names the list PCAPDJ_PROCESSED has gained
are the popped names whose file opened, in pop order: a name is appended if and
only if it was popped and its file opened; with `n` names popped of which `k` do
not open, the list has gained `n - k` entries and `num_files`, 0 after `init`,
is `n - k` modulo `2 ^ 64`. -/
theorem processed_iff_opened (fs : String → Option (List wtap_rec)) (ctx_err : Bool)
    (redis_queue : String) (evs : List Event) (status : Nat)
    (hsucc : allSucceeded
      (run (process_input_queue fs ctx_err redis_queue) evs (.connect, init)).2.trace)
    (hret : (run (process_input_queue fs ctx_err redis_queue) evs (.connect, init)).1 =
      .ret status) :
    appended RQUEUE
        (run (process_input_queue fs ctx_err redis_queue) evs (.connect, init)).2.trace =
      (popped (run (process_input_queue fs ctx_err redis_queue) evs
        (.connect, init)).2.trace).filter (opens fs) ∧
    (∀ f, f ∈ appended RQUEUE
        (run (process_input_queue fs ctx_err redis_queue) evs (.connect, init)).2.trace ↔
      f ∈ popped (run (process_input_queue fs ctx_err redis_queue) evs
        (.connect, init)).2.trace ∧ (fs f).isSome = true) ∧
    (appended RQUEUE
        (run (process_input_queue fs ctx_err redis_queue) evs (.connect, init)).2.trace).length =
      (popped (run (process_input_queue fs ctx_err redis_queue) evs
          (.connect, init)).2.trace).length -
        ((popped (run (process_input_queue fs ctx_err redis_queue) evs
          (.connect, init)).2.trace).filter (fun f => !opens fs f)).length ∧
    (run (process_input_queue fs ctx_err redis_queue) evs (.connect, init)).2.stats.num_files =
      ((popped (run (process_input_queue fs ctx_err redis_queue) evs
          (.connect, init)).2.trace).length -
        ((popped (run (process_input_queue fs ctx_err redis_queue) evs
          (.connect, init)).2.trace).filter (fun f => !opens fs f)).length) % U64 := by
  have hinv := QueueInv_run fs ctx_err redis_queue evs
  generalize run (process_input_queue fs ctx_err redis_queue) evs (.connect, init) = c
    at hinv hret hsucc
  obtain ⟨pc, g⟩ := c
  simp only at hret hsucc
  subst hret
  obtain ⟨_, h2, h3, h4⟩ := hinv
  have happ : appended RQUEUE g.trace = (popped g.trace).filter (opens fs) := by
    rw [appended_eq_pushed RQUEUE g.trace hsucc]; exact h2
  refine ⟨happ, ?_, ?_, ?_⟩
  · intro f
    rw [happ, List.mem_filter]
    rfl
  · rw [happ]; exact length_filter_eq_sub _ _
  · rw [Nat.mod_eq_of_lt h4] at h3
    rw [h3, length_filter_eq_sub]

/-- Witness of C2: the queue `a.pcap`, `missing.pcap`, `b.pcap`, every command
answered; `missing.pcap` does not open and the list gains `a.pcap` and
`b.pcap`. -/
theorem processed_iff_opened_witness :
    allSucceeded (run (process_input_queue twoFiles false "PCAPDJ_IN_QUEUE") threeJobs
      (.connect, init)).2.trace ∧
    (run (process_input_queue twoFiles false "PCAPDJ_IN_QUEUE") threeJobs (.connect, init)).1 =
      .ret EXIT_SUCCESS ∧
    (popped (run (process_input_queue twoFiles false "PCAPDJ_IN_QUEUE") threeJobs
      (.connect, init)).2.trace).filter (opens twoFiles) = ["a.pcap", "b.pcap"] ∧
    appended RQUEUE (run (process_input_queue twoFiles false "PCAPDJ_IN_QUEUE") threeJobs
      (.connect, init)).2.trace =
      (popped (run (process_input_queue twoFiles false "PCAPDJ_IN_QUEUE") threeJobs
        (.connect, init)).2.trace).filter (opens twoFiles) :=
  ⟨by decide, by decide, by decide,
    (processed_iff_opened twoFiles false "PCAPDJ_IN_QUEUE" threeJobs EXIT_SUCCESS (by decide)
      (by decide)).1⟩

/-! ## The handshake -/

theorem unauthorized_nil : unauthorized [] := by
  intro r hr
  simp at hr

theorem unauthorized_snoc (polls : List (Option redisReply)) (reply : Option redisReply)
    (h : unauthorized polls) (hr : reply ≠ some (.INTEGER 1)) : unauthorized (polls ++ [reply]) := by
  intro r hmem
  rcases List.mem_append.1 hmem with h1 | h1
  · exact h r h1
  · simp at h1
    rw [h1]; exact hr

theorem AuthInv_step (filename : String) (base : List Action) (reply : Option redisReply)
    (p : AuthPC) (g : Globals) (h : AuthInv filename base (p, g)) :
    AuthInv filename base (wait_auth_to_proceed filename reply p g) := by
  cases p with
  | set_state =>
    simp only [AuthInv] at h
    exact ⟨[], unauthorized_nil, by simp [h]⟩
  | poll =>
    obtain ⟨polls, hp, ht⟩ := h
    rw [wait_auth_to_proceed_poll]
    by_cases hr : reply = some (.INTEGER 1)
    · simp only [hr, if_true]
      exact ⟨polls, hp, by simp [redisCommand, ht, pollAction]⟩
    · simp only [hr, if_false]
      exact ⟨polls ++ [reply], unauthorized_snoc polls reply hp hr,
        by simp [redisCommand, ht, pollAction]⟩
  | del =>
    obtain ⟨polls, hp, ht⟩ := h
    exact ⟨polls, reply, hp, by simp [delete_auth_file, redisCommand, ht]⟩
  | ret => exact h

theorem AuthInv_signal (filename : String) (base : List Action) (s : Signal) (p : AuthPC)
    (g : Globals) (h : AuthInv filename base (p, g)) :
    AuthInv filename base (p, sig_handler s g) := by
  cases p <;> simp only [AuthInv, sig_handler_trace] at h ⊢ <;> exact h

theorem HandshakeInv_signal (filename : String) (base : List Action) (s : Signal) (p : FilePC)
    (g : Globals) (h : HandshakeInv filename base (p, g)) :
    HandshakeInv filename base (p, sig_handler s g) := by
  cases p with
  | wait_auth p =>
    obtain ⟨r0, h1, h2⟩ := h
    exact ⟨r0, AuthInv_signal filename _ s p g h1, h2⟩
  | _ =>
    simp only [HandshakeInv, sig_handler_trace] at h ⊢
    exact h

/-- After the handshake, a statement that appends nothing or an action on the file
keeps the shape of the history. -/
theorem HandshakeInv_tail (filename : String) (base : List Action) (g g1 : Globals)
    (acts : List Action) (ht : g1.trace = g.trace ++ acts)
    (ha : ∀ a ∈ acts, fileAction filename a = true)
    (h : ∃ r0 polls r1 tail, unauthorized polls ∧
      g.trace = base ++ handshakeTrace filename r0 polls r1 ++ tail ∧
      ∀ a ∈ tail, fileAction filename a = true) :
    ∃ r0 polls r1 tail, unauthorized polls ∧
      g1.trace = base ++ handshakeTrace filename r0 polls r1 ++ tail ∧
      ∀ a ∈ tail, fileAction filename a = true := by
  obtain ⟨r0, polls, r1, tail, hp, hg, hf⟩ := h
  refine ⟨r0, polls, r1, tail ++ acts, hp, by rw [ht, hg]; simp, ?_⟩
  intro a hmem
  rcases List.mem_append.1 hmem with h1 | h1
  · exact hf a h1
  · exact ha a h1

theorem HandshakeInv_step (fs : String → Option (List wtap_rec)) (filename : String)
    (base : List Action) (reply : Option redisReply) (p : FilePC) (g : Globals)
    (h : HandshakeInv filename base (p, g)) :
    HandshakeInv filename base (process_file fs filename reply p g) := by
  cases p with
  | update_next_file =>
    simp only [HandshakeInv] at h
    exact ⟨reply, by simp [AuthInv, update_next_file, redisCommand, h], by decide⟩
  | wait_auth p =>
    obtain ⟨r0, h1, h2⟩ := h
    have h3 := AuthInv_step filename _ reply p g h1
    cases p with
    | set_state => exact ⟨r0, h3, by decide⟩
    | poll =>
      rw [process_file_wait_auth_poll]
      rw [wait_auth_to_proceed_poll] at h3
      refine ⟨r0, h3, ?_⟩
      split <;> decide
    | del =>
      obtain ⟨polls, r1, hp, ht⟩ := h3
      rw [process_file_wait_auth_del]
      refine ⟨r0, polls, r1, [], hp, ?_, by simp⟩
      have ht1 : (delete_auth_file filename reply g).trace = _ := ht
      rw [ht1]
      simp [handshakeTrace]
    | ret => exact absurd rfl h2
  | open_offline =>
    simp only [process_file]
    cases hfs : fs filename with
    | none =>
      exact HandshakeInv_tail filename base g _ [.wtap_open_offline filename false] rfl
        (by simp [fileAction]) h
    | some recs =>
      exact HandshakeInv_tail filename base g _ [.wtap_open_offline filename true] rfl
        (by simp [fileAction]) h
  | inc_files recs => exact HandshakeInv_tail filename base g _ [] (by simp [process_file]) (by simp) h
  | read rest =>
    cases rest with
    | nil => exact HandshakeInv_tail filename base g _ [] (by simp [process_file]) (by simp) h
    | cons rec rest =>
      exact HandshakeInv_tail filename base g _ [] (by simp [process_file]) (by simp) h
  | suspend p rec rest =>
    rw [process_file_suspend]
    split
    · exact HandshakeInv_tail filename base g _ [] (by simp) (by simp) h
    · exact HandshakeInv_tail filename base g _ [] (by simp) (by simp) h
  | set_feed rec rest =>
    exact HandshakeInv_tail filename base g _ [] (by simp [process_file]) (by simp) h
  | dump rec rest =>
    exact HandshakeInv_tail filename base g _ [.wtap_dump rec] rfl (by simp [fileAction]) h
  | inc_packets rec rest =>
    exact HandshakeInv_tail filename base g _ [] (by simp [process_file]) (by simp) h
  | add_cap rec rest =>
    exact HandshakeInv_tail filename base g _ [] (by simp [process_file]) (by simp) h
  | add_len rec rest =>
    exact HandshakeInv_tail filename base g _ [] (by simp [process_file]) (by simp) h
  | update_processed_queue =>
    exact HandshakeInv_tail filename base g _ [.redisCommand (.RPUSH RQUEUE filename) reply] rfl
      (by simp [fileAction]) h
  | ret => exact h

/-- A run of polls that are not answered by 1 leaves `wait_auth_to_proceed` polling. -/
theorem run_unauthorized_polls (filename : String) (polls : List (Option redisReply))
    (h : unauthorized polls) (g : Globals) :
    run (wait_auth_to_proceed filename) (polls.map .step) (.poll, g) =
      (.poll, { g with trace := g.trace ++ polls.map (pollAction filename) }) := by
  induction polls generalizing g with
  | nil => simp [run]
  | cons r polls ih =>
    have hr : r ≠ some (.INTEGER 1) := h r (by simp)
    have hp : unauthorized polls := fun x hx => h x (by simp [hx])
    simp only [List.map_cons, run_cons, exec, wait_auth_to_proceed_poll, hr, if_false]
    rw [ih hp]
    simp [redisCommand, pollAction]

/-- C7: `wait_auth_to_proceed` returns exactly at the first poll answered by the
integer 1.  After any schedule its history is polls on `filename` of which none
but the last is answered by 1, and it has returned only when the last poll was
answered by 1 and was followed by one SREM of `filename`; a poll with any other
reply, or none, is followed by another poll; a poll answered by 1 is followed by
the SREM and the return, so that a sequence of poll replies whose first 1 comes
after `polls` makes it return there.  In `process_file`, after any schedule, the
file is opened, a record written or the name pushed on PCAPDJ_PROCESSED only
after one RPUSH of the name on PCAPDJ_NEXT followed by one complete handshake. -/
theorem wait_auth_returns_at_first_authorization (fs : String → Option (List wtap_rec))
    (filename : String) (g : Globals) (evs : List Event) :
    AuthInv filename g.trace (run (wait_auth_to_proceed filename) evs (.set_state, g)) ∧
    (∀ (g1 : Globals) (reply : Option redisReply), reply ≠ some (.INTEGER 1) →
      wait_auth_to_proceed filename reply .poll g1 =
        (.poll, redisCommand (.SISMEMBER AKEY filename) reply g1)) ∧
    (∀ (polls : List (Option redisReply)) (r r1 : Option redisReply), unauthorized polls →
      run (wait_auth_to_proceed filename)
          (.step r :: (polls.map .step ++ [.step (some (.INTEGER 1)), .step r1]))
          (.set_state, g) =
        (.ret,
          { g with
            stats := { g.stats with state := PCAPDJ_I_STATE_AUTH_WAIT }
            trace := g.trace ++ polls.map (pollAction filename) ++
              [pollAction filename (some (.INTEGER 1)),
                .redisCommand (.SREM AKEY filename) r1] })) ∧
    HandshakeInv filename g.trace (run (process_file fs filename) evs (.update_next_file, g)) := by
  refine ⟨?_, ?_, ?_, ?_⟩
  · refine run_invariant (wait_auth_to_proceed filename) (AuthInv filename g.trace) ?_ evs
      (.set_state, g) rfl
    intro e c hc
    obtain ⟨p, g1⟩ := c
    cases e with
    | signal s => exact AuthInv_signal filename _ s p g1 hc
    | step reply => exact AuthInv_step filename _ reply p g1 hc
  · intro g1 reply hr
    rw [wait_auth_to_proceed_poll]
    simp [hr]
  · intro polls r r1 hp
    rw [run_cons, run_append]
    simp only [exec, wait_auth_to_proceed]
    rw [run_unauthorized_polls filename polls hp]
    simp [run, exec, wait_auth_to_proceed_poll, wait_auth_to_proceed, delete_auth_file,
      redisCommand, pollAction]
  · refine run_invariant (process_file fs filename) (HandshakeInv filename g.trace) ?_ evs
      (.update_next_file, g) rfl
    intro e c hc
    obtain ⟨p, g1⟩ := c
    cases e with
    | signal s => exact HandshakeInv_signal filename _ s p g1 hc
    | step reply => exact HandshakeInv_step fs filename _ reply p g1 hc

/-! ## Writes and the suspend flag -/

/-- A statement of `process_file` that arrives between the check and the write, or
moves on there, does so with the flag clear. -/
theorem atWriteFile_step (fs : String → Option (List wtap_rec)) (filename : String)
    (reply : Option redisReply) (p : FilePC) (g : Globals)
    (h : atWriteFile p = true → g.sigusr1_suspend = 0) :
    atWriteFile (process_file fs filename reply p g).1 = true → g.sigusr1_suspend = 0 := by
  cases p with
  | wait_auth p =>
    cases p
    · simp [process_file_wait_auth_set_state, atWriteFile]
    · rw [process_file_wait_auth_poll]
      split <;> simp [atWriteFile]
    · simp [process_file_wait_auth_del, atWriteFile]
    · simp [process_file_wait_auth_ret, atWriteFile]
  | open_offline =>
    simp only [process_file]
    cases hfs : fs filename <;> simp [atWriteFile]
  | read rest => cases rest <;> simp [process_file, atWriteFile]
  | suspend p rec rest =>
    rw [process_file_suspend]
    by_cases h0 : g.sigusr1_suspend = 0
    · intro _; exact h0
    · cases p
      · simp [h0, atWriteFile]
      · simp [h0, atWriteFile]
      · exact fun _ => h (by simp [atWriteFile])
  | set_feed rec rest => exact fun _ => h (by simp [atWriteFile])
  | _ => simp [process_file, atWriteFile]

/-- A statement of the main flow that arrives between the check and the write, or
moves on there, does so with the flag clear. -/
theorem atWrite_step (fs : String → Option (List wtap_rec)) (ctx_err : Bool)
    (redis_queue : String) (reply : Option redisReply) (pc : PC) (g : Globals)
    (h : atWrite pc = true → g.sigusr1_suspend = 0) :
    atWrite (process_input_queue fs ctx_err redis_queue reply pc g).1 = true →
      (process_input_queue fs ctx_err redis_queue reply pc g).2.sigusr1_suspend = 0 := by
  have hf := (process_input_queue_frame fs ctx_err redis_queue reply pc g).1
  rw [hf]
  cases pc with
  | connect =>
    simp only [process_input_queue]
    split <;> simp [atWrite]
  | lpop =>
    simp only [process_input_queue]
    split <;> simp [atWrite, atWriteFile]
  | file filename p =>
    rw [process_input_queue_file]
    have h1 := atWriteFile_step fs filename reply p g (by simpa [atWrite] using h)
    split
    · simp [atWrite]
    · simpa [atWrite] using h1
  | _ => simp [process_input_queue, atWrite]

theorem atWrite_run (fs : String → Option (List wtap_rec)) (ctx_err : Bool)
    (redis_queue : String) :
    ∀ (evs : List Event) (c : PC × Globals),
      (atWrite c.1 = true → c.2.sigusr1_suspend = 0) →
      noToggleBeforeWrite (process_input_queue fs ctx_err redis_queue) evs c = true →
      atWrite (run (process_input_queue fs ctx_err redis_queue) evs c).1 = true →
      (run (process_input_queue fs ctx_err redis_queue) evs c).2.sigusr1_suspend = 0 := by
  intro evs
  induction evs with
  | nil => intro c h _; exact h
  | cons e evs ih =>
    intro c h hq
    simp only [noToggleBeforeWrite, Bool.and_eq_true, Bool.not_eq_true', Bool.and_eq_false_iff,
      decide_eq_false_iff_not] at hq
    obtain ⟨hq1, hq2⟩ := hq
    rw [run_cons]
    refine ih _ ?_ hq2
    cases e with
    | step reply => exact atWrite_step fs ctx_err redis_queue reply c.1 c.2 h
    | signal s =>
      cases s with
      | SIGUSR2 => exact h
      | SIGUSR1 =>
        rcases hq1 with hq1 | hq1
        · exact absurd rfl hq1
        · intro ha
          simp only [exec] at ha
          rw [hq1] at ha
          exact absurd ha (by decide)

/-- The invariant of the window between the check and the write is kept by every
event but a SIGUSR1 delivered in the window. -/
theorem atWrite_exec (fs : String → Option (List wtap_rec)) (ctx_err : Bool)
    (redis_queue : String) (e : Event) (c : PC × Globals)
    (h : atWrite c.1 = true → c.2.sigusr1_suspend = 0)
    (hq : ¬ (e = .signal .SIGUSR1 ∧ atWrite c.1 = true)) :
    atWrite (exec (process_input_queue fs ctx_err redis_queue) e c).1 = true →
      (exec (process_input_queue fs ctx_err redis_queue) e c).2.sigusr1_suspend = 0 := by
  cases e with
  | step reply => exact atWrite_step fs ctx_err redis_queue reply c.1 c.2 h
  | signal s =>
    cases s with
    | SIGUSR2 => exact h
    | SIGUSR1 =>
      intro ha
      exact absurd ⟨rfl, ha⟩ hq

/-- A statement of `process_file` writes no record, unless it is the call of
`wtap_dump`, which writes the record in hand. -/
theorem process_file_dump_step (fs : String → Option (List wtap_rec)) (filename : String)
    (reply : Option redisReply) (p : FilePC) (g : Globals) :
    dumped (process_file fs filename reply p g).2.trace = dumped g.trace ∨
      ∃ rec rest, p = .dump rec rest ∧
        (process_file fs filename reply p g).2.trace = g.trace ++ [.wtap_dump rec] := by
  cases p with
  | wait_auth p =>
    left
    cases p
    · simp [process_file_wait_auth_set_state]
    · rw [process_file_wait_auth_poll]
      simp [redisCommand, dumped]
    · simp [process_file_wait_auth_del, delete_auth_file, redisCommand, dumped]
    · simp [process_file_wait_auth_ret]
  | open_offline =>
    left
    simp only [process_file]
    cases hfs : fs filename <;> simp [dumped]
  | read rest => left; cases rest <;> simp [process_file]
  | suspend p rec rest =>
    left
    rw [process_file_suspend]
  | dump rec rest => exact Or.inr ⟨rec, rest, rfl, rfl⟩
  | _ =>
    left
    simp [process_file, update_next_file, update_processed_queue, redisCommand, dumped]

/-- An event writes no record, unless it is the call of `wtap_dump` by the main flow,
which writes the record in hand. -/
theorem exec_dump (fs : String → Option (List wtap_rec)) (ctx_err : Bool)
    (redis_queue : String) (e : Event) (c : PC × Globals) :
    dumped (exec (process_input_queue fs ctx_err redis_queue) e c).2.trace = dumped c.2.trace ∨
      ∃ filename rec rest, c.1 = .file filename (.dump rec rest) ∧
        (exec (process_input_queue fs ctx_err redis_queue) e c).2.trace =
          c.2.trace ++ [.wtap_dump rec] := by
  obtain ⟨pc, g⟩ := c
  cases e with
  | signal s =>
    left
    simp only [exec, sig_handler_trace]
  | step reply =>
    cases pc with
    | connect =>
      left
      simp only [exec, process_input_queue]
      split <;> rfl
    | lpop =>
      left
      simp only [exec, process_input_queue]
      split <;> simp [redisCommand, dumped]
    | file filename p =>
      simp only [exec, process_input_queue_file_snd]
      rcases process_file_dump_step fs filename reply p g with h | ⟨rec, rest, hp, ht⟩
      · exact Or.inl h
      · exact Or.inr ⟨filename, rec, rest, by rw [hp], ht⟩
    | _ =>
      left
      simp [exec, process_input_queue, delete_next_file_queue, redisCommand, dumped]

/-- In the window invariant, an event delivered while the flag is set writes no
record. -/
theorem exec_written_while_set (fs : String → Option (List wtap_rec)) (ctx_err : Bool)
    (redis_queue : String) (e : Event) (c : PC × Globals)
    (h : atWrite c.1 = true → c.2.sigusr1_suspend = 0) :
    (if c.2.sigusr1_suspend ≠ 0 then
        (dumped (exec (process_input_queue fs ctx_err redis_queue) e c).2.trace).drop
          (dumped c.2.trace).length
      else []) = [] := by
  by_cases hflag : c.2.sigusr1_suspend = 0
  · simp [hflag]
  · rcases exec_dump fs ctx_err redis_queue e c with hd | ⟨filename, rec, rest, hp, _⟩
    · simp [hd]
    · exact absurd (h (by rw [hp]; rfl)) hflag

theorem writtenWhileSuspended_nil (fs : String → Option (List wtap_rec)) (ctx_err : Bool)
    (redis_queue : String) (e : Event) :
    ∀ (evs : List Event) (c : PC × Globals),
      (atWrite c.1 = true → c.2.sigusr1_suspend = 0) →
      noToggleBeforeWrite (process_input_queue fs ctx_err redis_queue) evs c = true →
      writtenWhileSuspended (process_input_queue fs ctx_err redis_queue) (evs ++ [e]) c =
        [] := by
  intro evs
  induction evs with
  | nil =>
    intro c h _
    simp only [List.nil_append, writtenWhileSuspended, List.append_nil]
    exact exec_written_while_set fs ctx_err redis_queue e c h
  | cons e1 evs ih =>
    intro c h hq
    simp only [noToggleBeforeWrite, Bool.and_eq_true, Bool.not_eq_true', Bool.and_eq_false_iff,
      decide_eq_false_iff_not] at hq
    obtain ⟨hq1, hq2⟩ := hq
    have hq3 : ¬ (e1 = .signal .SIGUSR1 ∧ atWrite c.1 = true) := by
      rintro ⟨x1, x2⟩
      rcases hq1 with y | y
      · exact y x1
      · rw [x2] at y; exact absurd y (by decide)
    simp only [List.cons_append, writtenWhileSuspended]
    rw [exec_written_while_set fs ctx_err redis_queue e1 c h, List.nil_append]
    exact ih _ (atWrite_exec fs ctx_err redis_queue e1 c h hq3) hq2

/-- C4 fails as stated: SIGUSR1 is delivered after `suspend_pcapdj_if_needed` has
found the flag clear for the first record of `a.pcap`; the main flow is then at
the call of `wtap_dump` with the flag set, and its next statement writes the
record while the flag is set. -/
theorem write_while_suspended_counterexample :
    (run (process_input_queue twoFiles false "PCAPDJ_IN_QUEUE") toggleAfterCheck
        (.connect, init)).1 =
      .file "a.pcap" (.dump { caplen := 60, len := 1514, data := [1] }
        [{ caplen := 40, len := 40, data := [2] }]) ∧
    (run (process_input_queue twoFiles false "PCAPDJ_IN_QUEUE") toggleAfterCheck
        (.connect, init)).2.sigusr1_suspend = -1 ∧
    dumped (run (process_input_queue twoFiles false "PCAPDJ_IN_QUEUE") toggleAfterCheck
        (.connect, init)).2.trace = [] ∧
    dumped (run (process_input_queue twoFiles false "PCAPDJ_IN_QUEUE")
        (toggleAfterCheck ++ [.step none]) (.connect, init)).2.trace =
      [{ caplen := 60, len := 1514, data := [1] }] ∧
    (run (process_input_queue twoFiles false "PCAPDJ_IN_QUEUE")
        (toggleAfterCheck ++ [.step none]) (.connect, init)).2.sigusr1_suspend ≠ 0 ∧
    writtenWhileSuspended (process_input_queue twoFiles false "PCAPDJ_IN_QUEUE")
        (toggleAfterCheck ++ [.step none]) (.connect, init) =
      [{ caplen := 60, len := 1514, data := [1] }] := by
  decide

/-- C4, as amended: in every interleaving of the main flow with the signal handler
in which no SIGUSR1 is delivered between the return of
`suspend_pcapdj_if_needed` for a record and the call of `wtap_dump` on that
record, no record is written to the dumper while the suspend flag is set.  For
the schedule `evs` and any event `e` after it: the records written by events
delivered while the flag was set are none; `e` either writes no record, or it
finds the flag clear, leaves it clear, is the call of `wtap_dump` and writes
exactly the record in hand; and when the main flow is at the call of `wtap_dump`
the flag is clear and the call writes the record with the flag clear. -/
theorem no_write_while_suspended (fs : String → Option (List wtap_rec)) (ctx_err : Bool)
    (redis_queue : String) (g : Globals) (evs : List Event) (e : Event)
    (hquiet : noToggleBeforeWrite (process_input_queue fs ctx_err redis_queue) evs
      (.connect, g) = true) :
    writtenWhileSuspended (process_input_queue fs ctx_err redis_queue) (evs ++ [e])
        (.connect, g) = [] ∧
    (dumped (run (process_input_queue fs ctx_err redis_queue) (evs ++ [e])
          (.connect, g)).2.trace =
        dumped (run (process_input_queue fs ctx_err redis_queue) evs (.connect, g)).2.trace ∨
      ((run (process_input_queue fs ctx_err redis_queue) evs
          (.connect, g)).2.sigusr1_suspend = 0 ∧
        (run (process_input_queue fs ctx_err redis_queue) (evs ++ [e])
          (.connect, g)).2.sigusr1_suspend = 0 ∧
        ∃ filename rec rest,
          (run (process_input_queue fs ctx_err redis_queue) evs (.connect, g)).1 =
            .file filename (.dump rec rest) ∧
          (run (process_input_queue fs ctx_err redis_queue) (evs ++ [e])
              (.connect, g)).2.trace =
            (run (process_input_queue fs ctx_err redis_queue) evs (.connect, g)).2.trace ++
              [.wtap_dump rec])) ∧
    (∀ (filename : String) (rec : wtap_rec) (rest : List wtap_rec) (reply : Option redisReply),
      (run (process_input_queue fs ctx_err redis_queue) evs (.connect, g)).1 =
        .file filename (.dump rec rest) →
      (run (process_input_queue fs ctx_err redis_queue) evs
          (.connect, g)).2.sigusr1_suspend = 0 ∧
        (run (process_input_queue fs ctx_err redis_queue) (evs ++ [.step reply])
            (.connect, g)).2.trace =
          (run (process_input_queue fs ctx_err redis_queue) evs (.connect, g)).2.trace ++
            [.wtap_dump rec] ∧
        (run (process_input_queue fs ctx_err redis_queue) (evs ++ [.step reply])
          (.connect, g)).2.sigusr1_suspend = 0) := by
  have hinv := atWrite_run fs ctx_err redis_queue evs (.connect, g) (by simp [atWrite]) hquiet
  refine ⟨writtenWhileSuspended_nil fs ctx_err redis_queue e evs (.connect, g)
    (by simp [atWrite]) hquiet, ?_, ?_⟩
  · rw [run_snoc]
    generalize run (process_input_queue fs ctx_err redis_queue) evs (.connect, g) = c at hinv
    rcases exec_dump fs ctx_err redis_queue e c with hd | ⟨filename, rec, rest, hp, ht⟩
    · exact Or.inl hd
    · right
      have h0 : c.2.sigusr1_suspend = 0 := hinv (by rw [hp]; rfl)
      refine ⟨h0, ?_, filename, rec, rest, hp, ht⟩
      cases e with
      | signal s =>
        have hs := congrArg List.length ht
        simp only [exec, sig_handler_trace, List.length_append, List.length_cons,
          List.length_nil] at hs
        omega
      | step reply =>
        have hf := (process_input_queue_frame fs ctx_err redis_queue reply c.1 c.2).1
        simp only [exec]
        rw [hf]; exact h0
  · intro filename rec rest reply hdump
    have h0 := hinv (by rw [hdump]; rfl)
    rw [run_snoc]
    generalize run (process_input_queue fs ctx_err redis_queue) evs (.connect, g) = c
      at h0 hdump
    obtain ⟨pc, g1⟩ := c
    simp only at hdump h0
    subst hdump
    refine ⟨h0, ?_, ?_⟩
    · simp [exec, process_input_queue_file, process_file]
    · simpa [exec, process_input_queue_file, process_file] using h0

/-- Witness of C4 as amended: SIGUSR1 is delivered while the first record is being
read; the check finds the flag set and the record is written only after the
second SIGUSR1 has cleared it. -/
theorem no_write_while_suspended_witness :
    noToggleBeforeWrite (process_input_queue twoFiles false "PCAPDJ_IN_QUEUE") toggleBeforeCheck
      (.connect, init) = true ∧
    (run (process_input_queue twoFiles false "PCAPDJ_IN_QUEUE") toggleBeforeCheck
        (.connect, init)).1 =
      .file "a.pcap" (.dump { caplen := 60, len := 1514, data := [1] }
        [{ caplen := 40, len := 40, data := [2] }]) ∧
    dumped (run (process_input_queue twoFiles false "PCAPDJ_IN_QUEUE")
        (toggleBeforeCheck ++ [.step none]) (.connect, init)).2.trace =
      [{ caplen := 60, len := 1514, data := [1] }] ∧
    writtenWhileSuspended (process_input_queue twoFiles false "PCAPDJ_IN_QUEUE")
      (toggleBeforeCheck ++ [.step none]) (.connect, init) = [] :=
  ⟨by decide, by decide, by decide,
    (no_write_while_suspended twoFiles false "PCAPDJ_IN_QUEUE" init toggleBeforeCheck
      (.step none) (by decide)).1⟩

end Pcapdj
